import Mathlib

/-!
Verification development for the xdress Cython wrapper generator,
module src/xdress/cythongen.py.

The Python module walks description dictionaries of C++ classes and free
functions and emits three families of Cython source files.  This file gives
a shallow embedding of that module: description dictionaries become Lean
structures, the generator functions become Lean functions over them, and
the external type-conversion service (xdress/typesystem.py, which is not
part of the sources being verified) is an abstract record of functions.
For the generated overload dispatcher we additionally give a semantic model
of the runtime behaviour of the emitted code.
-/

/-- Semantic types are opaque atoms for the generator; xdress represents
them as strings or nested tuples and the core only passes them to the
type-conversion service.  We model them as strings. -/
abbrev SemType := String

/-- Dependency tuples, as accumulated by cython_import_tuples and
cython_cimport_tuples (variable-length tuples of strings). -/
abbrev DepTup := List String

/-- A run of n spaces. -/
def spacesN (n : Nat) : String :=
  String.mk (List.replicate n ' ')

/-- Modelled from the spec: the indentation helper xdress.utils.indent
(xdress/utils.py is not under src) prefixes each line with n spaces.
This is the single-line version. -/
def indent1 (n : Nat) (s : String) : String :=
  spacesN n ++ s

/-- Modelled from the spec: utils.indent with join=False on a list of lines,
with the default width of 4 spaces. -/
def indentL (lines : List String) : List String :=
  lines.map (indent1 4)

/-- Modelled from the spec: utils.indent with join=False applied to a single
string, which yields a one-element list. -/
def indentS (s : String) : List String :=
  [indent1 4 s]

/-- Modelled from the spec: utils.indent with join=True (the default),
given an explicit width, joining the indented lines with newlines. -/
def indentJn (n : Nat) (lines : List String) : String :=
  String.intercalate ("\n") (lines.map (indent1 n))

/-- Modelled from the spec: utils.indent with join=True at the default
width of 4. -/
def indentJ (lines : List String) : String :=
  indentJn 4 lines

/-- Model of the Python str.lower() call applied to generated symbols:
every character is lowercased. -/
def strLower (s : String) : String :=
  String.mk (s.data.map Char.toLower)

/-- Model of the Python format specifier given by zero, then a width, as in
the generator expressions of classpyx and funcpyx: the decimal rendering of
n, left-padded with character zero up to width w. -/
def padZeros (w : Nat) (n : Nat) : String :=
  String.mk (List.replicate (w - (Nat.repr n).length) '0') ++ Nat.repr n

/-- Width used for the zero-padding of mangled-name indices.  The source
computes int(math.log(count, 10) + 1) in double-precision floating point,
which equals the number of decimal digits of count for every group
cardinality from 1 to 999; the float computation undershoots the digit
count by one at some larger powers of ten (the first two such inputs are
1000 and 1000000, where the source pads to 3 and 6).  We embed the digit
count, so every theorem asserting a concrete mangled symbol carries the
bound that the group cardinality is below 1000, the domain on which this
definition and the source expression agree. -/
def numWidth (n : Nat) : Nat :=
  (Nat.repr n).length

/-- One argument of a signature key: tuples of the form (name, type) or
(name, type, default) in the description dictionaries. -/
structure Arg where
  name : String
  type : SemType
  dflt : Option String
deriving DecidableEq

/-- A signature key: the tuple (name, argument, ...) that identifies one
overload variant in a methods or signatures mapping. -/
structure MKey where
  name : String
  args : List Arg
deriving DecidableEq

/-- Docstrings attached to a class description. -/
structure DocStrings where
  cls : Option String
  attrs : List (String × String)
  meths : List (String × String)
deriving DecidableEq

/-- A class description dictionary.  The namespace key is spelled namespc
because namespace is a Lean keyword.  Description lookups that the source
performs with a plain subscript are modelled as total fields; per the spec,
a missing required key aborts generation, so well-formed inputs always
carry them. -/
structure ClassDesc where
  name : String
  namespc : String
  header_filename : String
  parents : Option (List String)
  attrs : List (String × SemType)
  methods : List (MKey × Option SemType)
  docstrings : DocStrings
  extra_pyx : String
  extra_pxd : String
  extra_cpppxd : String
  srcpxd_filename : String
deriving DecidableEq

/-- A free-function description dictionary. -/
structure FuncDesc where
  name : String
  namespc : String
  header_filename : String
  signatures : List (MKey × Option SemType)
  docstring : Option String
  extra_pyx : String
  extra_cpppxd : String
  srcpxd_filename : String
deriving DecidableEq

/-- A member of a module description: a class description, a function
description, or any other value (module metadata), which the generator
loops skip via the isclassdesc and isfuncdesc tests. -/
inductive Member where
  | cls (d : ClassDesc)
  | fnc (d : FuncDesc)
  | other
deriving DecidableEq

/-- A module description dictionary: the three output-filename slots, the
extra and docstring metadata, and the named members the module-level
generators iterate over. -/
structure ModDesc where
  srcpxd_filename : Option String
  pxd_filename : Option String
  pyx_filename : Option String
  extra : String
  docstring : Option String
  members : List (String × Member)

/-- An environment maps target names to module descriptions. -/
abbrev Env := List (String × ModDesc)

/-- Options threaded to the native-to-managed conversion service, mirroring
the keyword arguments the generator passes at its three call sites
(inst_name, cache_prefix, cached). -/
structure C2PyOpts where
  inst_name : String
  cache_prefix : Option String
  cached : Bool
deriving DecidableEq

/-- Result of the native-to-managed conversion service: optional
declaration lines, optional body lines, the result expression, and whether
the converted value is cacheable. -/
structure C2PyRes where
  decl : Option (List String)
  body : Option (List String)
  rtn : String
  iscached : Bool
deriving DecidableEq

/-- Result of the managed-to-native conversion service: optional
declaration lines, optional body lines, and the result expression. -/
structure Py2CRes where
  decl : Option (List String)
  body : Option (List String)
  rtn : String
deriving DecidableEq

/-- Scope hints passed to the cimport-tuple service: the source passes the
sets consisting of c, of cy, or the service default. -/
structure IncSet where
  c : Bool
  cy : Bool
deriving DecidableEq

/-- Modelled from the spec: the type-conversion and expansion services of
spec section 6 (xdress/typesystem.py and xdress/utils.py are not under
src).  The core treats semantic types as atoms and consults these
operations; dependency-reporting operations return the tuple sets that the
corresponding Python functions would add to their accumulator argument. -/
structure TS where
  cython_ctype : Option SemType → String
  cython_cytype : SemType → String
  cython_pytype : SemType → String
  isrefinement : SemType → Bool
  cython_c2py : String → Option SemType → C2PyOpts → C2PyRes
  cython_py2c : String → SemType → Py2CRes
  cython_cimport_tuples : Option SemType → IncSet → Finset DepTup
  cython_import_tuples : Option SemType → Finset DepTup
  cython_cimports : DepTup → String
  cython_imports : DepTup → String
  expand_default_args : List (MKey × Option SemType) → List (MKey × Option SemType)

/-- Scope hint set consisting only of c. -/
def incC : IncSet := ⟨true, false⟩

/-- Scope hint set consisting only of cy. -/
def incCy : IncSet := ⟨false, true⟩

/-- Modelled from the spec: the default scope hint of the cimport-tuple
service when the generator does not pass one. -/
def incDefault : IncSet := ⟨true, true⟩

/-- Registration of the cimport tuples a type requires: the Python service
mutates its accumulator set in place; we return the grown set. -/
def addCimportTuples (ts : TS) (t : Option SemType) (acc : Finset DepTup) (inc : IncSet) :
    Finset DepTup :=
  acc ∪ ts.cython_cimport_tuples t inc

/-- Registration of the import tuples a type requires. -/
def addImportTuples (ts : TS) (t : Option SemType) (acc : Finset DepTup) : Finset DepTup :=
  acc ∪ ts.cython_import_tuples t

/-- Modelled from the spec: registration of one single dependency tuple
into an accumulator set, the primitive set-insertion step of the
dependency_tuples service (set semantics). -/
def registerDepTuple (t : DepTup) (acc : Finset DepTup) : Finset DepTup :=
  insert t acc

/-- Comparison of characters by code point, as Python compares the
characters of strings. -/
def cmpChar (a b : Char) : Ordering :=
  if a.toNat < b.toNat then Ordering.lt
  else if b.toNat < a.toNat then Ordering.gt
  else Ordering.eq

/-- Lexicographic comparison of character lists by code point. -/
def cmpCharList : List Char → List Char → Ordering
  | [], [] => Ordering.eq
  | [], _ :: _ => Ordering.lt
  | _ :: _, [] => Ordering.gt
  | a :: as, b :: bs => (cmpChar a b).then (cmpCharList as bs)

/-- Comparison of strings, matching the Python comparison of strings by
code points. -/
def cmpStr (a b : String) : Ordering :=
  cmpCharList a.data b.data

/-- The non-strict string order induced by the comparison. -/
def pyStrLe (a b : String) : Bool :=
  cmpStr a b != Ordering.gt

instance pyStrLeIsTrans : IsTrans String (fun a b => pyStrLe a b = true) := by
  constructor
  have then_gt : ∀ o : Ordering, Ordering.then Ordering.gt o = Ordering.gt := fun _ => rfl
  have then_lt : ∀ o : Ordering, Ordering.then Ordering.lt o = Ordering.lt := fun _ => rfl
  have then_eq : ∀ o : Ordering, Ordering.then Ordering.eq o = o := fun _ => rfl
  have lt_iff : ∀ u v : Char, cmpChar u v = Ordering.lt ↔ u.toNat < v.toNat := by
    intro u v
    unfold cmpChar
    split_ifs with g1 g2
    · exact ⟨(fun _ => g1), (fun _ => rfl)⟩
    · exact ⟨(fun h => absurd h (by decide)), (fun h => absurd h g1)⟩
    · exact ⟨(fun h => absurd h (by decide)), (fun h => absurd h g1)⟩
  have eq_iff : ∀ u v : Char, cmpChar u v = Ordering.eq ↔ u = v := by
    intro u v
    unfold cmpChar
    split_ifs with g1 g2
    · exact ⟨(fun h => absurd h (by decide)), (fun h => absurd (h ▸ g1) (lt_irrefl _))⟩
    · exact ⟨(fun h => absurd h (by decide)), (fun h => absurd (h ▸ g2) (lt_irrefl _))⟩
    · refine ⟨(fun _ => Char.ext (UInt32.ext ?_)), (fun _ => rfl)⟩
      show Char.toNat u = Char.toNat v
      omega
  have key : ∀ (p q r : List Char), (cmpCharList p q != Ordering.gt) = true →
      (cmpCharList q r != Ordering.gt) = true →
      (cmpCharList p r != Ordering.gt) = true := by
    intro p
    induction p with
    | nil =>
      intro q r _ _
      cases r <;> rfl
    | cons a as ih =>
      intro q r h1 h2
      cases q with
      | nil =>
        simp only [cmpCharList] at h1
        exact absurd h1 (by decide)
      | cons b bs =>
        cases r with
        | nil =>
          simp only [cmpCharList] at h2
          exact absurd h2 (by decide)
        | cons c cs =>
          simp only [cmpCharList] at h1 h2 ⊢
          have hab : cmpChar a b = Ordering.lt ∨ cmpChar a b = Ordering.eq := by
            cases e : cmpChar a b with
            | lt => exact Or.inl rfl
            | eq => exact Or.inr rfl
            | gt =>
              rw [e, then_gt] at h1
              exact absurd h1 (by decide)
          have hbc : cmpChar b c = Ordering.lt ∨ cmpChar b c = Ordering.eq := by
            cases e : cmpChar b c with
            | lt => exact Or.inl rfl
            | eq => exact Or.inr rfl
            | gt =>
              rw [e, then_gt] at h2
              exact absurd h2 (by decide)
          rcases hab with hab | hab <;> rcases hbc with hbc | hbc
          · have hac : cmpChar a c = Ordering.lt :=
              (lt_iff a c).mpr (lt_trans ((lt_iff a b).mp hab) ((lt_iff b c).mp hbc))
            rw [hac, then_lt]
            decide
          · have hbceq := (eq_iff b c).mp hbc
            rw [← hbceq, hab, then_lt]
            decide
          · have habeq := (eq_iff a b).mp hab
            rw [habeq, hbc, then_lt]
            decide
          · have habeq := (eq_iff a b).mp hab
            have hbceq := (eq_iff b c).mp hbc
            rw [(eq_iff a c).mpr (habeq.trans hbceq), then_eq]
            rw [hab, then_eq] at h1
            rw [hbc, then_eq] at h2
            exact ih bs cs h1 h2
  intro x y z hxy hyz
  exact key x.data y.data z.data hxy hyz

instance pyStrLeIsAntisymm : IsAntisymm String (fun a b => pyStrLe a b = true) := by
  constructor
  have then_gt : ∀ o : Ordering, Ordering.then Ordering.gt o = Ordering.gt := fun _ => rfl
  have then_eq : ∀ o : Ordering, Ordering.then Ordering.eq o = o := fun _ => rfl
  have swapc : ∀ u v : Char, cmpChar v u = (cmpChar u v).swap := by
    intro u v
    unfold cmpChar
    split_ifs <;> first | rfl | omega
  have eq_iff : ∀ u v : Char, cmpChar u v = Ordering.eq ↔ u = v := by
    intro u v
    unfold cmpChar
    split_ifs with g1 g2
    · exact ⟨(fun h => absurd h (by decide)), (fun h => absurd (h ▸ g1) (lt_irrefl _))⟩
    · exact ⟨(fun h => absurd h (by decide)), (fun h => absurd (h ▸ g2) (lt_irrefl _))⟩
    · refine ⟨(fun _ => Char.ext (UInt32.ext ?_)), (fun _ => rfl)⟩
      show Char.toNat u = Char.toNat v
      omega
  have key : ∀ p q : List Char, (cmpCharList p q != Ordering.gt) = true →
      (cmpCharList q p != Ordering.gt) = true → p = q := by
    intro p
    induction p with
    | nil =>
      intro q _ h2
      cases q with
      | nil => rfl
      | cons b bs =>
        simp only [cmpCharList] at h2
        exact absurd h2 (by decide)
    | cons a as ih =>
      intro q h1 h2
      cases q with
      | nil =>
        simp only [cmpCharList] at h1
        exact absurd h1 (by decide)
      | cons b bs =>
        simp only [cmpCharList] at h1 h2
        have hab : cmpChar a b = Ordering.eq := by
          cases e : cmpChar a b with
          | lt =>
            have hba : cmpChar b a = Ordering.gt := by
              rw [swapc a b, e]
              rfl
            rw [hba, then_gt] at h2
            exact absurd h2 (by decide)
          | eq => rfl
          | gt =>
            rw [e, then_gt] at h1
            exact absurd h1 (by decide)
        have habeq := (eq_iff a b).mp hab
        have hba : cmpChar b a = Ordering.eq := by
          rw [swapc a b, hab]
          rfl
        rw [hab, then_eq] at h1
        rw [hba, then_eq] at h2
        rw [habeq, ih bs h1 h2]
  intro x y hxy hyx
  exact String.ext (key x.data y.data hxy hyx)

instance pyStrLeIsTotal : IsTotal String (fun a b => pyStrLe a b = true) := by
  constructor
  have then_swap : ∀ o p : Ordering, (o.then p).swap = o.swap.then p.swap := by
    intro o p
    cases o <;> rfl
  have swapc : ∀ u v : Char, cmpChar v u = (cmpChar u v).swap := by
    intro u v
    unfold cmpChar
    split_ifs <;> first | rfl | omega
  have swapl : ∀ p q : List Char, cmpCharList q p = (cmpCharList p q).swap := by
    intro p
    induction p with
    | nil => intro q; cases q <;> rfl
    | cons a as ih =>
      intro q
      cases q with
      | nil => rfl
      | cons b bs =>
        simp only [cmpCharList]
        rw [swapc a b, ih bs, then_swap]
  intro x y
  show (cmpCharList x.data y.data != Ordering.gt) = true ∨
    (cmpCharList y.data x.data != Ordering.gt) = true
  rw [swapl x.data y.data]
  cases cmpCharList x.data y.data with
  | lt => exact Or.inl rfl
  | eq => exact Or.inl rfl
  | gt => exact Or.inr rfl

/-- Rendering of an accumulated cimport set at module-header time:
the source joins sorted(cython_cimports(tups)) with newlines. -/
def renderCimports (ts : TS) (tups : Finset DepTup) : List String :=
  (tups.image ts.cython_cimports).sort (fun a b => pyStrLe a b = true)

/-- Rendering of an accumulated import set at module-header time. -/
def renderImports (ts : TS) (tups : Finset DepTup) : List String :=
  (tups.image ts.cython_imports).sort (fun a b => pyStrLe a b = true)

/-- Python dictionary read: the value of the most recent write wins. -/
def dictGet {α : Type} (l : List (String × α)) (k : String) : Option α :=
  (l.reverse.find? (fun p => p.1 == k)).map (fun p => p.2)

/-- Python dictionary read for signature-key-indexed dictionaries. -/
def dictGetK {α : Type} (l : List (MKey × α)) (k : MKey) : Option α :=
  (l.reverse.find? (fun p => p.1 == k)).map (fun p => p.2)

/-- Python dictionary write for signature-key-indexed dictionaries:
overwriting keeps the insertion position, a fresh key is appended. -/
def dictSet {α : Type} (l : List (MKey × α)) (k : MKey) (v : α) : List (MKey × α) :=
  if l.any (fun p => p.1 == k) then l.map (fun p => if p.1 == k then (k, v) else p)
  else l ++ [(k, v)]

/-- Comparison of optional default values: Python tuple comparison makes
the shorter tuple (no default) come first. -/
def cmpOptStr (a b : Option String) : Ordering :=
  match a, b with
  | none, none => Ordering.eq
  | none, some _ => Ordering.lt
  | some _, none => Ordering.gt
  | some x, some y => cmpStr x y

/-- Comparison of one signature-key argument tuple. -/
def cmpArg (a b : Arg) : Ordering :=
  (cmpStr a.name b.name).then ((cmpStr a.type b.type).then (cmpOptStr a.dflt b.dflt))

/-- Lexicographic comparison of argument lists, shorter prefix first,
matching Python tuple comparison. -/
def cmpArgs : List Arg → List Arg → Ordering
  | [], [] => Ordering.eq
  | [], _ :: _ => Ordering.lt
  | _ :: _, [] => Ordering.gt
  | a :: as, b :: bs => (cmpArg a b).then (cmpArgs as bs)

/-- Comparison of signature keys. -/
def cmpMKey (a b : MKey) : Ordering :=
  (cmpStr a.name b.name).then (cmpArgs a.args b.args)

/-- Comparison of dictionary items (key, return type) as Python sorted()
compares them. -/
def cmpItem (a b : MKey × Option SemType) : Ordering :=
  (cmpMKey a.1 b.1).then (cmpOptStr a.2 b.2)

/-- Model of the Python sorted() builtin under a comparison function: a
sort by the non-strict order of the comparison.  Python sorted() is the
stable sort by this order; every call site sorts by a key that separates
distinct elements (dictionary keys, attribute names, mangled symbols), and
on such tie-free inputs every sort by the order computes the same list, so
a structurally recursive insertion sort embeds it. -/
def pySortedBy {α : Type} (cmp : α → α → Ordering) (l : List α) : List α :=
  List.insertionSort (fun a b => (cmp a b != Ordering.gt) = true) l

/-- Model of sorted() on strings. -/
def pySortedStr (l : List String) : List String :=
  pySortedBy cmpStr l

/-- Number of refinement-typed arguments of a signature key, the quantity
summed by the refinenum and refineopp sort keys of gen_dispatcher. -/
def refinecount (ts : TS) (k : MKey) : Nat :=
  (k.args.filter (fun a => ts.isrefinement a.type)).length

/-- The refinenum sort key of gen_dispatcher, for the exact-match phase:
(number of refinement arguments, length of the signature-key tuple,
mangled name). -/
def refinenum (ts : TS) (x : MKey × String) : Nat × Nat × String :=
  (refinecount ts x.1, 1 + x.1.args.length, x.2)

/-- The refineopp sort key of gen_dispatcher, for the best-effort phase:
(negated number of refinement arguments, length of the signature-key tuple,
mangled name). -/
def refineopp (ts : TS) (x : MKey × String) : Int × Nat × String :=
  (-(refinecount ts x.1 : Int), 1 + x.1.args.length, x.2)

/-- Boolean lexicographic order on (Nat, Nat, String) triples, the order by
which Python sorted() ranks refinenum keys. -/
def rank3Le (a b : Nat × Nat × String) : Bool :=
  if a.1 < b.1 then true
  else if b.1 < a.1 then false
  else if a.2.1 < b.2.1 then true
  else if b.2.1 < a.2.1 then false
  else pyStrLe a.2.2 b.2.2

/-- Boolean lexicographic order on (Int, Nat, String) triples, the order by
which Python sorted() ranks refineopp keys. -/
def rank3LeI (a b : Int × Nat × String) : Bool :=
  if a.1 < b.1 then true
  else if b.1 < a.1 then false
  else if a.2.1 < b.2.1 then true
  else if b.2.1 < a.2.1 then false
  else pyStrLe a.2.2 b.2.2

/-- The order in which gen_dispatcher emits the exact-match conditionals:
sorted by the refinenum key. -/
def exactOrder (ts : TS) (tbl : List (MKey × String)) : List (MKey × String) :=
  List.insertionSort (fun a b => rank3Le (refinenum ts a) (refinenum ts b) = true) tbl

/-- The order in which gen_dispatcher emits the best-effort try blocks:
sorted by the refineopp key. -/
def bestOrder (ts : TS) (tbl : List (MKey × String)) : List (MKey × String) :=
  List.insertionSort (fun a b => rank3LeI (refineopp ts a) (refineopp ts b) = true) tbl

/-- A slot of a dispatch pair: a positional index or a keyword name. -/
inductive SlotKey where
  | idx (i : Nat)
  | kw (s : String)
deriving DecidableEq

/-- A dispatch pair: a slot together with a dynamic type name. -/
abbrev DispPair := SlotKey × String

/-- The required-pair set of one variant, as emitted into the frozenset
named after its mangled name: one (index, dynamic type) pair for every
positional index and one (name, dynamic type) pair for every argument
name, with the dynamic type obtained from cython_pytype. -/
def requiredPairs (ts : TS) (k : MKey) : List DispPair :=
  (k.args.enum.map (fun p => (SlotKey.idx p.1, ts.cython_pytype p.2.type))) ++
  (k.args.map (fun a => (SlotKey.kw a.name, ts.cython_pytype a.type)))

/-- A call as observed at dispatch time: the runtime type names of the
positional arguments in order, and of the keyword arguments. -/
structure PyCall where
  pos : List String
  named : List (String × String)

/-- The pair set the emitted dispatcher computes from the actual call:
types = set((i, type(a)) for positional) updated with (k, type(v)) for
keyword arguments. -/
def actualPairs (c : PyCall) : List DispPair :=
  (c.pos.enum.map (fun p => (SlotKey.idx p.1, p.2))) ++
  (c.named.map (fun p => (SlotKey.kw p.1, p.2)))

/-- Finite-set inclusion of pair lists, the operator the emitted code
applies between the actual set and a variant frozenset. -/
def subsetB (xs ys : List DispPair) : Bool :=
  xs.all (fun x => ys.contains x)

/-- The sequence of (required-pair frozenset, mangled name) conditionals
that gen_dispatcher emits for the exact-match phase, in emission order. -/
def exactChain (ts : TS) (tbl : List (MKey × String)) : List (List DispPair × String) :=
  (exactOrder ts tbl).map (fun km => (requiredPairs ts km.1, km.2))

/-- Runtime of the emitted exact-match conditionals: the chain of
if types <= self.<mangled>_argtypes tests is walked in emission order and
the first test that succeeds returns its variant. -/
def execIfChain (actual : List DispPair) : List (List DispPair × String) → Option String
  | [] => none
  | (req, m) :: rest =>
    if subsetB actual req then some m else execIfChain actual rest

/-- The variant the exact-match phase of the emitted dispatcher selects for
a call, if any.  Models the runtime of the code emitted at
src/xdress/cythongen.py lines 579-603. -/
def exactSelect (ts : TS) (tbl : List (MKey × String)) (c : PyCall) : Option String :=
  execIfChain (actualPairs c) (exactChain ts tbl)

/-- Python error values raised by a variant invocation, classified by the
error kinds the emitted dispatcher distinguishes. -/
inductive PyErr where
  | runtimeError (msg : String)
  | typeError (msg : String)
  | nameError (msg : String)
  | otherError (kind : String) (msg : String)
deriving DecidableEq

/-- The error kinds tolerated by the best-effort phase: exactly the three
classes named in the emitted except clause (RuntimeError, TypeError,
NameError). -/
def tolerated : PyErr → Bool
  | PyErr.runtimeError _ => true
  | PyErr.typeError _ => true
  | PyErr.nameError _ => true
  | PyErr.otherError _ _ => false

/-- Whether an invocation result is a tolerated error. -/
def isToleratedError {V : Type} : Except PyErr V → Bool
  | Except.ok _ => false
  | Except.error e => tolerated e

/-- The dispatch-failure error the emitted dispatcher raises when every
variant has been exhausted. -/
def dispatchFailure (name : String) : PyErr :=
  PyErr.runtimeError ("method " ++ name ++ "() could not be dispatched")

/-- Decidable equality of invocation results. -/
instance exceptDecEq {e a : Type} [DecidableEq e] [DecidableEq a] :
    DecidableEq (Except e a) := fun x y =>
  match x, y with
  | Except.ok u, Except.ok v =>
    if h : u = v then isTrue (by rw [h]) else isFalse (by intro hc; cases hc; exact h rfl)
  | Except.ok _, Except.error _ => isFalse (by intro hc; cases hc)
  | Except.error _, Except.ok _ => isFalse (by intro hc; cases hc)
  | Except.error u, Except.error v =>
    if h : u = v then isTrue (by rw [h]) else isFalse (by intro hc; cases hc; exact h rfl)

/-- Runtime of the emitted best-effort try blocks: each variant is invoked
in turn inside try/except (RuntimeError, TypeError, NameError); a
successful invocation returns, a tolerated error falls through to the next
variant, any other error propagates, and exhaustion raises the
dispatch-failure RuntimeError naming the method.  Models the runtime of
the code emitted at src/xdress/cythongen.py lines 604-618. -/
def execTryChain {V : Type} (name : String) (outcome : String → Except PyErr V) :
    List String → Except PyErr V
  | [] => Except.error (dispatchFailure name)
  | m :: rest =>
    match outcome m with
    | Except.ok v => Except.ok v
    | Except.error e =>
      if tolerated e then execTryChain name outcome rest else Except.error e

/-- The best-effort phase of the emitted dispatcher: the try blocks are
walked in refineopp order. -/
def runBestEffort {V : Type} (ts : TS) (name : String) (tbl : List (MKey × String))
    (outcome : String → Except PyErr V) : Except PyErr V :=
  execTryChain name outcome ((bestOrder ts tbl).map (fun km => km.2))

/-- Full runtime of the emitted dispatcher: the exact-match phase runs
first and, on a match, invokes the selected variant directly (its errors
propagate, there is no try around the phase-one call); otherwise the
best-effort phase runs. -/
def runDispatcher {V : Type} (ts : TS) (name : String) (tbl : List (MKey × String))
    (c : PyCall) (outcome : String → Except PyErr V) : Except PyErr V :=
  match exactSelect ts tbl c with
  | some m => outcome m
  | none => runBestEffort ts name tbl outcome

/-- Modelled from the spec: the default inst_name keyword of the
native-to-managed conversion service. -/
def c2pyInstNameDefault : String := "self._inst"

/-- Modelled from the spec: the default cache_prefix keyword of the
native-to-managed conversion service. -/
def c2pyCachePrefixDefault : Option String := some ("self")

/-- Modelled from the spec: the default cached keyword of the
native-to-managed conversion service. -/
def c2pyCachedDefault : Bool := true

/-- The no-docstring placeholder message of classpyx and funcpyx. -/
def nodocmsg (n : String) : String :=
  "no docstring for " ++ n ++ ", please file a bug report!"

/-- The auto-generated warning banner prepended to every output file. -/
def AUTOGEN_WARNING : String :=
  "################################################\n" ++
  "#                 WARNING!                     #\n" ++
  "# This file has been auto-generated by xdress. #\n" ++
  "# Do not modify!!!                             #\n" ++
  "#                                              #\n" ++
  "#                                              #\n" ++
  "#                    Come on, guys. I mean it! #\n" ++
  "################################################\n"

/-- Model of the Python idiom rsplit on a dot, keeping the first part:
drops the last dot-separated extension of a filename, or returns the
string unchanged when it has no dot. -/
def stripExt (f : String) : String :=
  let r := f.data.reverse
  if r.contains '.' then String.mk (((r.dropWhile (fun c => c != '.')).drop 1).reverse)
  else f

/-- Embeds _gen_property_get (src/xdress/cythongen.py lines 463-475): the
Cython property getter for one attribute.  Returns the emitted lines and
the cached_names accumulator after the call (the Python function mutates
the list argument in place). -/
def gen_property_get (ts : TS) (name : String) (t : SemType)
    (cached_names : Option (List String)) (inst_name : String) :
    List String × Option (List String) :=
  let lines := ["def __get__(self):"]
  let r := ts.cython_c2py name (some t) ⟨inst_name, c2pyCachePrefixDefault, c2pyCachedDefault⟩
  let lines := lines ++ (match r.decl with | none => [] | some d => indentL d)
  let lines := lines ++ (match r.body with | none => [] | some b => indentL b)
  let cached2 := match cached_names with
    | none => none
    | some cn => if r.iscached then some (cn ++ [r.rtn]) else some cn
  let lines := lines ++ indentS ("return " ++ r.rtn)
  (lines, cached2)

/-- Embeds _gen_property_set (src/xdress/cythongen.py lines 478-490): the
Cython property setter for one attribute, with the optional cache slot to
invalidate after the native assignment. -/
def gen_property_set (ts : TS) (name : String) (t : SemType) (inst_name : String)
    (cached_name : Option String) : List String :=
  let lines := ["def __set__(self, value):"]
  let r := ts.cython_py2c ("value") t
  let lines := lines ++ (match r.decl with | none => [] | some d => indentL d)
  let lines := lines ++ (match r.body with | none => [] | some b => indentL b)
  let lines := lines ++ indentS (inst_name ++ "." ++ name ++ " = " ++ r.rtn)
  match cached_name with
  | none => lines
  | some c => lines ++ indentS (c ++ " = None")

/-- Embeds _gen_property (src/xdress/cythongen.py lines 493-506): the full
property block for one attribute.  The setter receives a cache slot to
invalidate exactly when the getter grew cached_names by one entry, namely
by its own cache slot. -/
def gen_property (ts : TS) (name : String) (t : SemType) (doc : Option String)
    (cached_names : Option (List String)) (inst_name : String) :
    List String × Option (List String) :=
  let lines := ["property " ++ name ++ ":"]
  let lines := lines ++ (match doc with
    | none => []
    | some d => indentS ("\"\"\"" ++ d ++ "\"\"\""))
  let oldcnlen := match cached_names with | none => 0 | some cn => cn.length
  let got := gen_property_get ts name t cached_names inst_name
  let lines := lines ++ indentL got.1
  let lines := lines ++ [""]
  let newcnlen := match got.2 with | none => 0 | some cn => cn.length
  let cached_name : Option String :=
    if newcnlen == 1 + oldcnlen then (got.2.getD []).getLast? else none
  let lines := lines ++ indentL (gen_property_set ts name t inst_name cached_name)
  let lines := lines ++ ["", ""]
  (lines, got.2)

/-- The def-line argument list shared by _gen_method and _gen_constructor:
self, then the defaultless arguments, then name=default pairs. -/
def argfillOf (args : List Arg) : String :=
  String.intercalate ", "
    (["self"] ++ (args.filter (fun a => a.dflt == none)).map (fun a => a.name) ++
      (args.filter (fun a => !(a.dflt == none))).map
        (fun a => a.name ++ "=" ++ a.dflt.getD ""))

/-- Embeds _gen_method (src/xdress/cythongen.py lines 509-545): one plain
wrapped method or function under its mangled def name. -/
def gen_method (ts : TS) (name : String) (name_mangled : String) (args : List Arg)
    (rtn : Option SemType) (doc : Option String) (inst_name : String) : List String :=
  let lines := ["def " ++ name_mangled ++ "(" ++ argfillOf args ++ "):"]
  let lines := lines ++ (match doc with
    | none => []
    | some d => indentS ("\"\"\"" ++ d ++ "\"\"\""))
  let conv := args.map (fun a => (a, ts.cython_py2c a.name a.type))
  let decls := conv.flatMap (fun p => match p.2.decl with | none => [] | some d => indentL d)
  let argbodies := conv.flatMap (fun p => match p.2.body with | none => [] | some b => indentL b)
  let argrtns : List (String × String) := conv.map (fun p => (p.1.name, p.2.rtn))
  let rtype := ts.cython_ctype rtn
  let hasrtn := !(rtype == "None" || rtype == "NULL" || rtype == "void")
  let argvals := String.intercalate ", " (args.map (fun a => (dictGet argrtns a.name).getD ""))
  let fcall := inst_name ++ "." ++ name ++ "(" ++ argvals ++ ")"
  if hasrtn then
    let fc := ts.cython_c2py ("rtnval") rtn
      ⟨c2pyInstNameDefault, c2pyCachePrefixDefault, false⟩
    let decls := decls ++ indentS ("cdef " ++ rtype ++ " " ++ "rtnval")
    let func_call := indentS ("rtnval = " ++ fcall)
    let decls := decls ++ (match fc.decl with | none => [] | some d => indentL d)
    let func_call := func_call ++ (match fc.body with | none => [] | some b => indentL b)
    let func_rtn := indentS ("return " ++ fc.rtn)
    lines ++ decls ++ argbodies ++ func_call ++ func_rtn ++ ["", ""]
  else
    lines ++ decls ++ argbodies ++ indentS fcall ++ ["", ""]

/-- Embeds _gen_constructor (src/xdress/cythongen.py lines 548-573): one
constructor variant under its mangled def name. -/
def gen_constructor (ts : TS) (name : String) (name_mangled : String) (classname : String)
    (args : List Arg) (doc : Option String) (srcpxd_filename : Option String)
    (inst_name : String) : List String :=
  let lines := ["def " ++ name_mangled ++ "(" ++ argfillOf args ++ "):"]
  let lines := lines ++ (match doc with
    | none => []
    | some d => indentS ("\"\"\"" ++ d ++ "\"\"\""))
  let conv := args.map (fun a => (a, ts.cython_py2c a.name a.type))
  let decls := conv.flatMap (fun p => match p.2.decl with | none => [] | some d => indentL d)
  let argbodies := conv.flatMap (fun p => match p.2.body with | none => [] | some b => indentL b)
  let argrtns : List (String × String) := conv.map (fun p => (p.1.name, p.2.rtn))
  let argvals := String.intercalate ", " (args.map (fun a => (dictGet argrtns a.name).getD ""))
  let classname2 := match srcpxd_filename with
    | none => classname
    | some f => stripExt f ++ "." ++ classname
  let fcall := "self._inst = new " ++ classname2 ++ "(" ++ argvals ++ ")"
  lines ++ decls ++ argbodies ++ indentS fcall ++ ["", ""]

/-- Embeds _gen_dispatcher (src/xdress/cythongen.py lines 575-619): the
emitted text of the two-phase dispatcher registered under the shared name
of an overloaded group. -/
def gen_dispatcher (ts : TS) (name : String) (name_mangled : List (MKey × String))
    (doc : Option String) (hasrtn : Bool) : List String :=
  let lines := ["def " ++ name ++ "(" ++ "self, *args, **kwargs" ++ "):"]
  let lines := lines ++ (match doc with
    | none => []
    | some d => indentS ("\"\"\"" ++ d ++ "\"\"\""))
  let lines := lines ++ indentL
    ["types = set([(i, type(a)) for i, a in enumerate(args)])",
     "types.update([(k, type(v)) for k, v in kwargs.items()])"]
  let lines := lines ++ indentS ("# vtable-like dispatch for exactly matching types")
  let step := fun (acc : List String × List String) (km : MKey × String) =>
    let cargs := km.1.args
    let mangled_name := km.2
    let mtypes := String.intercalate ", "
      ((cargs.enum.map (fun p =>
          "(" ++ Nat.repr p.1 ++ ", " ++ ts.cython_pytype p.2.type ++ ")")) ++
       (cargs.map (fun ca =>
          "(\"" ++ ca.name ++ "\", " ++ ts.cython_pytype ca.type ++ ")")))
    let mtups := if 0 < mtypes.length then "(" ++ mtypes ++ ")" else mtypes
    let mtl := acc.1 ++ [mangled_name ++ "_argtypes = frozenset(" ++ mtups ++ ")"]
    let rline := if hasrtn then ["return self." ++ mangled_name ++ "(*args, **kwargs)"]
      else ["self." ++ mangled_name ++ "(*args, **kwargs)", "return"]
    let cond := ["if types <= self." ++ mangled_name ++ "_argtypes:"] ++ indentL rline
    (mtl, acc.2 ++ indentL cond)
  let z := (exactOrder ts name_mangled).foldl step ([], lines)
  let lines := pySortedStr z.1 ++ [""] ++ z.2
  let lines := lines ++ indentS ("# duck-typed dispatch based on whatever works!")
  let lines := (bestOrder ts name_mangled).foldl (fun acc (km : MKey × String) =>
    let mangled_name := km.2
    let rline := if hasrtn then ["return self." ++ mangled_name ++ "(*args, **kwargs)"]
      else ["self." ++ mangled_name ++ "(*args, **kwargs)", "return"]
    acc ++ indentS ("try:") ++ indentL (indentL rline) ++
      indentL ["except (RuntimeError, TypeError, NameError):", indent1 4 ("pass")]) lines
  let errmsg := "raise RuntimeError('method " ++ name ++ "() could not be dispatched')"
  lines ++ indentS errmsg ++ [""]

/-- A flat namespace of class descriptions, as passed to classpyx under the
name classes. -/
abbrev Classes := List (String × ClassDesc)

/-- Dictionary access into the flat class namespace. -/
def getClass (cs : Classes) (n : String) : Option ClassDesc :=
  dictGet cs n

/-- Embeds _class_heirarchy (src/xdress/cythongen.py lines 622-629), the
linearized ancestor chain builder: a class with no parents contributes
nothing; otherwise the class is prepended (when not already at the head)
and every parent, walked in reverse, is prepended followed by its own
chain.  The Python recursion is unbounded; we carry explicit fuel, and on
acyclic inputs whose class lookups all resolve any fuel larger than the
inheritance depth computes the same chain the Python function builds.
A class name missing from the namespace would raise a KeyError in the
source; the model stops extending the chain there. -/
def class_heirarchy (cs : Classes) : Nat → String → List String → List String
  | 0, _, ch => ch
  | fuel+1, cls, ch =>
    match getClass cs cls with
    | none => ch
    | some d =>
      match d.parents with
      | none => ch
      | some ps =>
        let ch1 := if ch.length == 0 || !(ch.head? == some cls) then cls :: ch else ch
        ps.reverse.foldl (fun acc p => class_heirarchy cs fuel p (p :: acc)) ch1

/-- Fuel sufficient for every acyclic class namespace: the inheritance
depth is bounded by the number of classes. -/
def classHeirarchyFuel (cs : Classes) : Nat :=
  cs.length + 1

/-- The linearized ancestor chain of a class, root-first, self-last,
as _method_instance_names computes it starting from an empty list. -/
def classHeirarchyTop (cs : Classes) (cls : String) : List String :=
  class_heirarchy cs (classHeirarchyFuel cs) cls []

/-- Whether a class of the namespace declares exactly the given
signature-key to return-type pair, the test of the loop in
_method_instance_names (a missing class or method key compares unequal,
like the NotImplemented sentinel in the source). -/
def declaresPair (cs : Classes) (cn : String) (key : MKey) (rtn : Option SemType) : Bool :=
  match getClass cs cn with
  | none => false
  | some d => dictGetK d.methods key == some rtn

/-- Embeds _method_instance_names (src/xdress/cythongen.py lines 631-642):
walks the linearized chain and qualifies the call against the first class
whose method table carries the identical signature-key to return-type
pair, falling back to the class itself. -/
def method_instance_names (ts : TS) (cs : Classes) (desc : ClassDesc) (key : MKey)
    (rtn : Option SemType) : String × String :=
  let classnames := classHeirarchyTop cs desc.name
  match classnames.find? (fun cn => declaresPair cs cn key rtn) with
  | some classname =>
    ("(<" ++ ts.cython_ctype (some classname) ++ " *> self._inst)", classname)
  | none =>
    ("(<" ++ ts.cython_ctype (some desc.name) ++ " *> self._inst)", desc.name)

/-- Embeds _count0 (src/xdress/cythongen.py lines 645-650) as the counting
function it tabulates: how many signature keys carry a given name. -/
def count0 (x : List MKey) : String → Nat :=
  fun n => (x.filter (fun k => k.name == n)).length

/-- Model of the Python str.startswith test, written as a character-list
comparison so that concrete instances reduce in the kernel (semantically
equal to String.startsWith). -/
def strStartsWith (s pat : String) : Bool :=
  pat.data.isPrefixOf s.data

/-- Embeds _doc_add_sig (src/xdress/cythongen.py lines 652-658). -/
def doc_add_sig (doc : String) (name : String) (args : List Arg) (ismethod : Bool) : String :=
  if strStartsWith doc name then doc
  else
    let sig := (if ismethod then ["self"] else []) ++
      args.map (fun a => match a.dflt with
        | none => a.name
        | some d => a.name ++ "=" ++ d)
    name ++ "(" ++ String.intercalate ", " sig ++ ")\n" ++ doc

/-- The index zero-padded mangled symbol assigned to an overloaded method:
the format expression of classpyx line 750, lowercased. -/
def mangleName (clsname : String) (mname : String) (idx cnt : Nat) : String :=
  strLower ("_" ++ clsname ++ "_" ++ mname ++ "_" ++ padZeros (numWidth cnt) idx)

/-- The mangled symbol assigned to an overloaded free function: the format
expression of funcpyx line 840, lowercased (no owner component). -/
def funcMangleName (fname : String) (idx cnt : Nat) : String :=
  strLower ("_" ++ fname ++ "_" ++ padZeros (numWidth cnt) idx)

/-- One constructor emission of the classpyx method loop, carrying every
argument the loop passes to _gen_constructor. -/
structure CtorEmit where
  mname : String
  mangled : String
  classname : String
  args : List Arg
  doc : String
  srcpxd : Option String
  inst : String
deriving DecidableEq

/-- One method emission of the classpyx or funcpyx loop. -/
structure MethEmit where
  mname : String
  mangled : String
  args : List Arg
  rtn : Option SemType
  doc : String
  inst : String
deriving DecidableEq

/-- One dispatcher emission: the registered name, the mangled-variant
table (the entries of mangled_mnames whose key carries the group name),
the docstring, and whether the dispatcher returns a value. -/
structure DispEmit where
  regname : String
  nm : List (MKey × String)
  doc : String
  hasrtn : Bool
deriving DecidableEq

/-- An emission event of the classpyx or funcpyx loop, in source order. -/
inductive PyxEvent where
  | ctor (e : CtorEmit)
  | meth (e : MethEmit)
  | disp (e : DispEmit)
deriving DecidableEq

/-- Rendering of one emission event into the exact lines the source
appends at that point of the loop. -/
def renderPyxEvent (ts : TS) : PyxEvent → List String
  | PyxEvent.ctor e =>
    gen_constructor ts e.mname e.mangled e.classname e.args (some e.doc) e.srcpxd e.inst
  | PyxEvent.meth e => gen_method ts e.mname e.mangled e.args e.rtn (some e.doc) e.inst
  | PyxEvent.disp e => gen_dispatcher ts e.regname e.nm (some e.doc) e.hasrtn

/-- The running state of the classpyx method loop: the currcounts
occurrence counters, the mangled_mnames table, the emission events destined
for the constructor block and the methods block, and the two dependency
accumulator sets. -/
structure PyxLoopState where
  cur : String → Nat
  mangled : List (MKey × String)
  cevents : List PyxEvent
  mevents : List PyxEvent
  itups : Finset DepTup
  citups : Finset DepTup

/-- Embeds one iteration of the classpyx method loop
(src/xdress/cythongen.py lines 745-792): private names are skipped; the
mangled symbol is assigned from the pre-increment occurrence counter when
the name group has more than one member; constructors named neither after
the class nor __init__ (destructors) are dropped after the bookkeeping; a
size-one constructor group collapses to __init__; and after the last
member of an overloaded group the dispatcher emission follows, registered
under __init__ without a return value for constructors and under the bare
name with a return value for methods. -/
def pyxStep (ts : TS) (cs : Classes) (desc : ClassDesc) (cnts : String → Nat)
    (st : PyxLoopState) (item : MKey × Option SemType) : PyxLoopState :=
  let mkey := item.1
  let mrtn := item.2
  let mname := mkey.name
  if strStartsWith mname ("_") then st else
  let mangled0 := if 1 < cnts mname then mangleName desc.name mname (st.cur mname) (cnts mname)
    else mname
  let cur1 : String → Nat := fun n => if n == mname then st.cur n + 1 else st.cur n
  let mang1 := dictSet st.mangled mkey mangled0
  let itups1 := mkey.args.foldl (fun acc a => addImportTuples ts (some a.type) acc) st.itups
  let citups1 := mkey.args.foldl
    (fun acc a => addCimportTuples ts (some a.type) acc incDefault) st.citups
  let r := method_instance_names ts cs desc mkey mrtn
  let minst := r.1
  let mcname := r.2
  let itups2 := if !(mcname == desc.name) then addImportTuples ts (some mcname) itups1
    else itups1
  let citups2 := if !(mcname == desc.name) then
      addCimportTuples ts (some mcname) citups1 incDefault
    else citups1
  match mrtn with
  | none =>
    if !(mname == desc.name) && !(mname == "__init__") then
      ⟨cur1, mang1, st.cevents, st.mevents, itups2, citups2⟩
    else
      let mangled1 := if cnts mname == 1 then "__init__" else mangled0
      let mang2 := if cnts mname == 1 then dictSet mang1 mkey ("__init__") else mang1
      let mdoc0 := (dictGet desc.docstrings.meths mname).getD ""
      let mdoc := doc_add_sig mdoc0 mname mkey.args true
      let ev := PyxEvent.ctor
        ⟨mname, mangled1, desc.name, mkey.args, mdoc, some desc.srcpxd_filename, minst⟩
      let disps := if 1 < cnts mname && cur1 mname == cnts mname then
          [PyxEvent.disp ⟨"__init__", mang2.filter (fun kv => kv.1.name == mname), mdoc, false⟩]
        else []
      ⟨cur1, mang2, st.cevents ++ [ev] ++ disps, st.mevents, itups2, citups2⟩
  | some rt =>
    let itups3 := addImportTuples ts (some rt) itups2
    let citups3 := addCimportTuples ts (some rt) citups2 incDefault
    let mdoc0 := (dictGet desc.docstrings.meths mname).getD (nodocmsg mname)
    let mdoc := doc_add_sig mdoc0 mname mkey.args true
    let ev := PyxEvent.meth ⟨mname, mangled0, mkey.args, some rt, mdoc, minst⟩
    let disps := if 1 < cnts mname && cur1 mname == cnts mname then
        [PyxEvent.disp ⟨mname, mang1.filter (fun kv => kv.1.name == mname), mdoc, true⟩]
      else []
    ⟨cur1, mang1, st.cevents, st.mevents ++ [ev] ++ disps, itups3, citups3⟩

/-- The classpyx method loop over the sorted method items. -/
def pyxLoop (ts : TS) (cs : Classes) (desc : ClassDesc) (cnts : String → Nat) :
    List (MKey × Option SemType) → PyxLoopState → PyxLoopState
  | [], st => st
  | item :: rest, st => pyxLoop ts cs desc cnts rest (pyxStep ts cs desc cnts st item)

/-- The initial state of the classpyx method loop. -/
def pyxInit (itups citups : Finset DepTup) : PyxLoopState :=
  ⟨fun _ => 0, [], [], [], itups, citups⟩

/-- Substring test, modelling the Python in operator on strings. -/
def containsSub (big pat : String) : Bool :=
  decide (List.IsInfix pat.data big.data)

/-- Comparison of attribute items (name, type) as sorted() orders them. -/
def cmpAttr (a b : String × SemType) : Ordering :=
  (cmpStr a.1 b.1).then (cmpStr a.2 b.2)

/-- The attribute walk of classpyx (src/xdress/cythongen.py lines 723-734):
private attributes are skipped, every public attribute contributes its
property block, grows the cached-names accumulator through gen_property,
and registers its import and cimport tuples. -/
def classpyxAttrs (ts : TS) (desc : ClassDesc) (inst_name : String) :
    List (String × SemType) → List String → List String → Finset DepTup → Finset DepTup →
    List String × List String × Finset DepTup × Finset DepTup
  | [], alines, cached, itups, citups => (alines, cached, itups, citups)
  | p :: rest, alines, cached, itups, citups =>
    if strStartsWith p.1 ("_") then classpyxAttrs ts desc inst_name rest alines cached itups citups
    else
      let adoc := (dictGet desc.docstrings.attrs p.1).getD (nodocmsg p.1)
      let pr := gen_property ts p.1 p.2 (some adoc) (some cached) inst_name
      classpyxAttrs ts desc inst_name rest (alines ++ pr.1) (pr.2.getD cached)
        (addImportTuples ts (some p.2) itups)
        (addCimportTuples ts (some p.2) citups incDefault)

/-- The release-routine lines classpyx appends to the constructor block of
a parentless class (src/xdress/cythongen.py lines 793-796): a __dealloc__
routine that frees the native handle only under the ownership flag.
Classes with a declared parent receive no such routine. -/
def classpyxDealloc (desc : ClassDesc) : List String :=
  if desc.parents == none then
    ["def __dealloc__(self):"] ++ indentS ("if self._free_inst:") ++
      indentL (indentS ("free(self._inst)"))
  else []

/-- The body of the _pyx_class_template with its slots filled in
(src/xdress/cythongen.py lines 661-681). -/
def pyxClassTemplate (name parents class_docstring property_defaults constructor_block
    attrs_block methods_block extra : String) : String :=
  "cdef class " ++ name ++ parents ++ ":\n" ++ class_docstring ++ "\n\n" ++
  "    # constuctors\n" ++
  "    def __cinit__(self, *args, **kwargs):\n" ++
  "        self._inst = NULL\n" ++
  "        self._free_inst = True\n\n" ++
  "        # cached property defaults\n" ++
  property_defaults ++ "\n\n" ++
  constructor_block ++ "\n\n" ++
  "    # attributes\n" ++ attrs_block ++ "\n" ++
  "    # methods\n" ++ methods_block ++ "\n\n" ++
  extra ++ "\n"

/-- The final state of the classpyx method loop for a class description:
the loop runs over the sorted method items with the name counts of the
methods table, starting from zero occurrence counters, an empty
mangled_mnames table and the given dependency accumulators. -/
def classpyxState (ts : TS) (desc : ClassDesc) (classes : Option Classes)
    (itups citups : Finset DepTup) : PyxLoopState :=
  pyxLoop ts (classes.getD [(desc.name, desc)]) desc
    (count0 (desc.methods.map (fun kv => kv.1)))
    (pySortedBy cmpItem desc.methods) (pyxInit itups citups)

/-- Embeds classpyx (src/xdress/cythongen.py lines 683-806): the full pyx
wrapper class emission.  Returns the import-tuple set, the cimport-tuple
set, and the class text.  The write-back of a memoized pyx_filename into
the description (lines 804-805) mutates the input dictionary only and is
not modelled. -/
def classpyx (ts : TS) (desc : ClassDesc) (classes : Option Classes) :
    Finset DepTup × Finset DepTup × String :=
  let pars := String.intercalate ", " ((desc.parents.getD []).map (fun p => ts.cython_cytype p))
  let parstr := if pars.length == 0 then pars else "(" ++ pars ++ ")"
  let class_doc := (desc.docstrings.cls).getD (nodocmsg desc.name)
  let class_docstring := indent1 4 ("\"\"\"" ++ class_doc ++ "\"\"\"")
  let class_ctype := ts.cython_ctype (some desc.name)
  let inst_name := "(<" ++ class_ctype ++ " *> self._inst)"
  let itups0 := (desc.parents.getD []).foldl
    (fun acc p => addImportTuples ts (some p) acc) (∅ : Finset DepTup)
  let citups0 := (desc.parents.getD []).foldl
    (fun acc p => addCimportTuples ts (some p) acc incDefault) (∅ : Finset DepTup)
  let at4 := classpyxAttrs ts desc inst_name (pySortedBy cmpAttr desc.attrs) [] [] itups0 citups0
  let alines := at4.1
  let cached_names := at4.2.1
  let attrs_block := indentJ alines
  let property_defaults := indentJ (indentL (cached_names.map (fun n => n ++ " = None")))
  let stF := classpyxState ts desc classes at4.2.2.1 at4.2.2.2
  let mlines := stF.mevents.flatMap (renderPyxEvent ts)
  let clines := stF.cevents.flatMap (renderPyxEvent ts) ++ classpyxDealloc desc
  let citupsF := if desc.parents == none then
      insert (["libc.stdlib", "free"] : DepTup) stF.citups
    else stF.citups
  let pyx := pyxClassTemplate desc.name parstr class_docstring property_defaults
    (indentJ clines) attrs_block (indentJ mlines) desc.extra_pyx
  (stF.itups, citupsF, pyx)

/-- The running state of the funcpyx signature loop. -/
structure FuncLoopState where
  cur : String → Nat
  mangled : List (MKey × String)
  fevents : List PyxEvent
  itups : Finset DepTup
  citups : Finset DepTup

/-- Embeds one iteration of the funcpyx signature loop
(src/xdress/cythongen.py lines 835-858): private names are skipped, the
mangled symbol carries no owner component, and after the last member of an
overloaded group the dispatcher is registered under the bare function
name. -/
def funcStep (ts : TS) (desc : FuncDesc) (cnts : String → Nat) (inst_name : String)
    (st : FuncLoopState) (item : MKey × Option SemType) : FuncLoopState :=
  let fkey := item.1
  let frtn := item.2
  let fname := fkey.name
  if strStartsWith fname ("_") then st else
  let mangled0 := if 1 < cnts fname then funcMangleName fname (st.cur fname) (cnts fname)
    else fname
  let cur1 : String → Nat := fun n => if n == fname then st.cur n + 1 else st.cur n
  let mang1 := dictSet st.mangled fkey mangled0
  let itups1 := fkey.args.foldl (fun acc a => addImportTuples ts (some a.type) acc) st.itups
  let citups1 := fkey.args.foldl
    (fun acc a => addCimportTuples ts (some a.type) acc incDefault) st.citups
  let itups2 := addImportTuples ts frtn itups1
  let citups2 := addCimportTuples ts frtn citups1 incDefault
  let fdoc := doc_add_sig (desc.docstring.getD (nodocmsg fname)) fname fkey.args true
  let ev := PyxEvent.meth ⟨fname, mangled0, fkey.args, frtn, fdoc, inst_name⟩
  let disps := if 1 < cnts fname && cur1 fname == cnts fname then
      [PyxEvent.disp ⟨fname, mang1.filter (fun kv => kv.1.name == fname), fdoc, true⟩]
    else []
  ⟨cur1, mang1, st.fevents ++ [ev] ++ disps, itups2, citups2⟩

/-- The funcpyx signature loop over the sorted signature items. -/
def funcLoop (ts : TS) (desc : FuncDesc) (cnts : String → Nat) (inst_name : String) :
    List (MKey × Option SemType) → FuncLoopState → FuncLoopState
  | [], st => st
  | item :: rest, st => funcLoop ts desc cnts inst_name rest (funcStep ts desc cnts inst_name st item)

/-- The final state of the funcpyx signature loop for a function
description. -/
def funcpyxState (ts : TS) (desc : FuncDesc) : FuncLoopState :=
  funcLoop ts desc (count0 (desc.signatures.map (fun kv => kv.1)))
    (stripExt desc.srcpxd_filename) (pySortedBy cmpItem desc.signatures)
    ⟨fun _ => 0, [], [], ∅, {[stripExt desc.srcpxd_filename]}⟩

/-- Embeds funcpyx (src/xdress/cythongen.py lines 809-864): the pyx
wrapper emission for a free-function description.  The memoized
pyx_filename write-back (lines 862-863) is not modelled. -/
def funcpyx (ts : TS) (desc : FuncDesc) : Finset DepTup × Finset DepTup × String :=
  let stF := funcpyxState ts desc
  let flines := stF.fevents.flatMap (renderPyxEvent ts) ++ [desc.extra_pyx]
  (stF.itups, stF.citups, String.intercalate ("\n") flines)

/-- The member walk of modpyx (src/xdress/cythongen.py lines 443-452):
class members go through classpyx, function members through funcpyx,
anything else is skipped; the tuple sets accumulate by union. -/
def modpyxMembers (ts : TS) (classes : Option Classes) :
    List (String × Member) → Finset DepTup → Finset DepTup → List String →
    Finset DepTup × Finset DepTup × List String
  | [], itups, citups, attrs => (itups, citups, attrs)
  | m :: rest, itups, citups, attrs =>
    match m.2 with
    | Member.cls d =>
      let r := classpyx ts d classes
      modpyxMembers ts classes rest (itups ∪ r.1) (citups ∪ r.2.1) (attrs ++ [r.2.2])
    | Member.fnc d =>
      let r := funcpyx ts d
      modpyxMembers ts classes rest (itups ∪ r.1) (citups ∪ r.2.1) (attrs ++ [r.2.2])
    | Member.other => modpyxMembers ts classes rest itups citups attrs

/-- Embeds modpyx (src/xdress/cythongen.py lines 418-460): the full pyx
module emission.  The accumulated tuple sets are rendered once, sorted, at
the module header; a numpy cimport triggers the np.import_array() call.
(The local variable t built at line 458 is unused in the source; the
output is formatted from _pyx_mod_template.) -/
def modpyx (ts : TS) (mod : ModDesc) (classes : Option Classes) : String :=
  let r := modpyxMembers ts classes mod.members ∅ ∅ []
  let imports := String.intercalate ("\n") (renderImports ts r.1)
  let cimports := String.intercalate ("\n") (renderCimports ts r.2.1)
  let imports := if containsSub cimports ("numpy") then
      imports ++ "\n\nnp.import_array()"
    else imports
  let attrs_block := String.intercalate ("\n") r.2.2
  let docstring := mod.docstring.getD ("no docstring, please file a bug report!")
  AUTOGEN_WARNING ++ "\"\"\"" ++ docstring ++ "\n\"\"\"\n" ++ cimports ++ "\n\n" ++
    imports ++ "\n\n" ++ attrs_block ++ "\n\n" ++ mod.extra ++ "\n"

/-- The flat class namespace genpyx computes when none is supplied
(src/xdress/cythongen.py lines 390-396). -/
def genpyxClasses (env : Env) : Classes :=
  env.foldl (fun acc nm =>
    nm.2.members.foldl (fun acc2 md =>
      match md.2 with
      | Member.cls d => acc2 ++ [(d.name, d)]
      | _ => acc2) acc) []

/-- Embeds genpyx (src/xdress/cythongen.py lines 371-403): modules whose
pyx_filename slot is None are skipped silently; every other module maps to
its modpyx text. -/
def genpyx (ts : TS) (env : Env) (classes : Option Classes) : List (String × String) :=
  let cs := match classes with
    | some c => c
    | none => genpyxClasses env
  env.foldl (fun acc nm =>
    if nm.2.pyx_filename == none then acc
    else acc ++ [(nm.1, modpyx ts nm.2 (some cs))]) []

/-- The body lines of the pxd re-export block of a class
(src/xdress/cythongen.py lines 352-364): a parentless class declares the
native handle pointer and the public ownership flag; every class then
declares one public backing slot per cached public attribute. -/
def classpxdBody (ts : TS) (desc : ClassDesc) : List String :=
  let parentless_body := ["cdef void * _inst", "cdef public bint _free_inst"]
  let body0 := if desc.parents == none then parentless_body else []
  (pySortedBy cmpAttr desc.attrs).foldl (fun body p =>
    if strStartsWith p.1 ("_") then body
    else
      let r := ts.cython_c2py p.1 (some p.2) ⟨c2pyInstNameDefault, none, c2pyCachedDefault⟩
      if r.iscached then
        body ++ ["cdef public " ++ ts.cython_cytype p.2 ++ " " ++ r.rtn]
      else body) body0

/-- The cimport tuples classpxd accumulates alongside its body. -/
def classpxdTups (ts : TS) (desc : ClassDesc) : Finset DepTup :=
  let citups0 := (desc.parents.getD []).foldl
    (fun acc p => addCimportTuples ts (some p) acc incCy) (∅ : Finset DepTup)
  let citups1 := addCimportTuples ts (some desc.name) citups0 incC
  (pySortedBy cmpAttr desc.attrs).foldl (fun acc p =>
    if strStartsWith p.1 ("_") then acc
    else
      let r := ts.cython_c2py p.1 (some p.2) ⟨c2pyInstNameDefault, none, c2pyCachedDefault⟩
      if r.iscached then addCimportTuples ts (some p.2) acc incDefault
      else acc) citups1

/-- Embeds classpxd (src/xdress/cythongen.py lines 315-368): the pxd
re-export snippet of a class.  The memoized pxd_filename write-back
(lines 332-333) is not modelled; the name_type entry computed at line 349
is unused by the template. -/
def classpxd (ts : TS) (desc : ClassDesc) : Finset DepTup × String :=
  let pars := String.intercalate ", " ((desc.parents.getD []).map (fun p => ts.cython_cytype p))
  let parstr := if pars.length == 0 then pars else "(" ++ pars ++ ")"
  let body := classpxdBody ts desc
  let bodyStr := indentJ (if body.isEmpty then ["pass"] else body)
  let pxd := "cdef class " ++ desc.name ++ parstr ++ ":\n" ++ bodyStr ++ "\n\n" ++
    desc.extra_pxd ++ "\n"
  (classpxdTups ts desc, pxd)

/-- The member walk of modpxd (src/xdress/cythongen.py lines 292-299):
only class members are re-exported. -/
def modpxdMembers (ts : TS) :
    List (String × Member) → Finset DepTup → List String → Finset DepTup × List String
  | [], citups, attrs => (citups, attrs)
  | m :: rest, citups, attrs =>
    match m.2 with
    | Member.cls d =>
      let r := classpxd ts d
      modpxdMembers ts rest (citups ∪ r.1) (attrs ++ [r.2])
    | _ => modpxdMembers ts rest citups attrs

/-- Embeds modpxd (src/xdress/cythongen.py lines 273-304). -/
def modpxd (ts : TS) (mod : ModDesc) : String :=
  let r := modpxdMembers ts mod.members ∅ []
  let cimports := String.intercalate ("\n") (renderCimports ts r.1)
  let attrs_block := String.intercalate ("\n") r.2
  AUTOGEN_WARNING ++ "\n\n" ++ cimports ++ "\n\n" ++ attrs_block ++ "\n\n" ++ mod.extra

/-- Embeds genpxd (src/xdress/cythongen.py lines 250-270): modules whose
pxd_filename slot is None are skipped silently. -/
def genpxd (ts : TS) (env : Env) : List (String × String) :=
  env.foldl (fun acc nm =>
    if nm.2.pxd_filename == none then acc
    else acc ++ [(nm.1, modpxd ts nm.2)]) []

/-- The exception annotation suffix of the cpp pxd pipelines. -/
def exceptStr (exception_type : Option String) : String :=
  match exception_type with
  | none => ""
  | some e => " except " ++ e

/-- The method walk of classcpppxd (src/xdress/cythongen.py lines
159-180): private and destructor names are skipped, constructor lines and
method lines are collected without duplicates, and every touched type
registers its cimport tuples. -/
def classcpppxdMeths (ts : TS) (estr : String) :
    List (MKey × Option SemType) → List String → List String → Finset DepTup →
    List String × List String × Finset DepTup
  | [], mlines, clines, citups => (mlines, clines, citups)
  | (mkey, mrtn) :: rest, mlines, clines, citups =>
    if strStartsWith mkey.name ("_") || strStartsWith mkey.name ("~") then
      classcpppxdMeths ts estr rest mlines clines citups
    else
      let argfill := String.intercalate ", "
        (mkey.args.map (fun a => ts.cython_ctype (some a.type)))
      let citups1 := mkey.args.foldl
        (fun acc a => addCimportTuples ts (some a.type) acc incC) citups
      let line := mkey.name ++ "(" ++ argfill ++ ")" ++ estr
      match mrtn with
      | none =>
        let clines1 := if clines.contains line then clines else clines ++ [line]
        classcpppxdMeths ts estr rest mlines clines1 citups1
      | some rt =>
        let rtype := ts.cython_ctype (some rt)
        let citups2 := addCimportTuples ts (some rt) citups1 incC
        let line1 := rtype ++ " " ++ line
        let mlines1 := if mlines.contains line1 then mlines else mlines ++ [line1]
        classcpppxdMeths ts estr rest mlines1 clines citups2

/-- Embeds classcpppxd (src/xdress/cythongen.py lines 115-186): the cpp
pxd declaration snippet of a class.  The memoized srcpxd_filename
write-back (lines 184-185) is not modelled. -/
def classcpppxd (ts : TS) (desc : ClassDesc) (exception_type : Option String) :
    Finset DepTup × String :=
  let pars := String.intercalate ", " ((desc.parents.getD []).map (fun p => ts.cython_ctype (some p)))
  let parstr := if pars.length == 0 then pars else "(" ++ pars ++ ")"
  let citups0 := (desc.parents.getD []).foldl
    (fun acc p => addCimportTuples ts (some p) acc incC) (∅ : Finset DepTup)
  let afold := (pySortedBy cmpAttr desc.attrs).foldl (fun (acc : List String × Finset DepTup) p =>
    if strStartsWith p.1 ("_") then acc
    else (acc.1 ++ [ts.cython_ctype (some p.2) ++ " " ++ p.1],
      addCimportTuples ts (some p.2) acc.2 incC)) ([], citups0)
  let estr := exceptStr exception_type
  let methitems := pySortedBy cmpItem (ts.expand_default_args desc.methods)
  let r := classcpppxdMeths ts estr methitems [] [] afold.2
  let cpppxd :=
    "cdef extern from \"" ++ desc.header_filename ++ "\" namespace \"" ++ desc.namespc ++
    "\":\n\n    cdef cppclass " ++ desc.name ++ parstr ++ ":\n        # constructors\n" ++
    indentJn 8 r.2.1 ++ "\n\n        # attributes\n" ++ indentJn 8 afold.1 ++
    "\n\n        # methods\n" ++ indentJn 8 r.1 ++ "\n\n" ++ desc.extra_cpppxd ++ "\n"
  (r.2.2, cpppxd)

/-- The signature walk of funccpppxd (src/xdress/cythongen.py lines
225-241). -/
def funccpppxdSigs (ts : TS) (estr : String) :
    List (MKey × Option SemType) → List String → Finset DepTup → List String × Finset DepTup
  | [], flines, citups => (flines, citups)
  | (fkey, frtn) :: rest, flines, citups =>
    if strStartsWith fkey.name ("_") then funccpppxdSigs ts estr rest flines citups
    else
      let argfill := String.intercalate ", "
        (fkey.args.map (fun a => ts.cython_ctype (some a.type)))
      let citups1 := fkey.args.foldl
        (fun acc a => addCimportTuples ts (some a.type) acc incC) citups
      let line := fkey.name ++ "(" ++ argfill ++ ")" ++ estr
      let rtype := ts.cython_ctype frtn
      let citups2 := addCimportTuples ts frtn citups1 incC
      let line1 := rtype ++ " " ++ line
      let flines1 := if flines.contains line1 then flines else flines ++ [line1]
      funccpppxdSigs ts estr rest flines1 citups2

/-- Embeds funccpppxd (src/xdress/cythongen.py lines 198-247).  The
memoized srcpxd_filename write-back (lines 245-246) is not modelled. -/
def funccpppxd (ts : TS) (desc : FuncDesc) (exception_type : Option String) :
    Finset DepTup × String :=
  let estr := exceptStr exception_type
  let funcitems := pySortedBy cmpItem (ts.expand_default_args desc.signatures)
  let r := funccpppxdSigs ts estr funcitems [] ∅
  let cpppxd :=
    "# function signatures\ncdef extern from \"" ++ desc.header_filename ++
    "\" namespace \"" ++ desc.namespc ++ "\":\n\n" ++ indentJn 4 r.1 ++ "\n\n" ++
    desc.extra_cpppxd ++ "\n"
  (r.2, cpppxd)

/-- The member walk of modcpppxd (src/xdress/cythongen.py lines 83-91). -/
def modcpppxdMembers (ts : TS) (exception_type : Option String) :
    List (String × Member) → Finset DepTup → List String → Finset DepTup × List String
  | [], citups, attrs => (citups, attrs)
  | m :: rest, citups, attrs =>
    match m.2 with
    | Member.cls d =>
      let r := classcpppxd ts d exception_type
      modcpppxdMembers ts exception_type rest (citups ∪ r.1) (attrs ++ [r.2])
    | Member.fnc d =>
      let r := funccpppxd ts d exception_type
      modcpppxdMembers ts exception_type rest (citups ∪ r.1) (attrs ++ [r.2])
    | Member.other => modcpppxdMembers ts exception_type rest citups attrs

/-- Embeds modcpppxd (src/xdress/cythongen.py lines 61-96). -/
def modcpppxd (ts : TS) (mod : ModDesc) (exception_type : Option String) : String :=
  let r := modcpppxdMembers ts exception_type mod.members ∅ []
  let cimports := String.intercalate ("\n") (renderCimports ts r.1)
  let attrs_block := String.intercalate ("\n") r.2
  AUTOGEN_WARNING ++ "\n\n" ++ cimports ++ "\n\n" ++ attrs_block ++ "\n\n" ++ mod.extra

/-- Embeds gencpppxd (src/xdress/cythongen.py lines 35-58): modules whose
srcpxd_filename slot is None are skipped silently. -/
def gencpppxd (ts : TS) (env : Env) (exception_type : Option String) :
    List (String × String) :=
  env.foldl (fun acc nm =>
    if nm.2.srcpxd_filename == none then acc
    else acc ++ [(nm.1, modcpppxd ts nm.2 exception_type)]) []

/-- The claim-side selection rule of the exact-match phase as the claim
words it: first variant, in refinenum order, whose required-pair set is a
subset of the actual-pair set. -/
def claimC1Select (ts : TS) (tbl : List (MKey × String)) (c : PyCall) : Option String :=
  ((exactOrder ts tbl).find?
    (fun km => subsetB (requiredPairs ts km.1) (actualPairs c))).map (fun km => km.2)

/-- Boolean lexicographic order on (Int, Int, String) triples. -/
def rank3LeII (a b : Int × Int × String) : Bool :=
  if a.1 < b.1 then true
  else if b.1 < a.1 then false
  else if a.2.1 < b.2.1 then true
  else if b.2.1 < a.2.1 then false
  else pyStrLe a.2.2 b.2.2

/-- The claim-side ranking of the best-effort phase as the claim words it:
more refinement-typed arguments first, then descending argument count,
then mangled name. -/
def claimC2Rank (ts : TS) (x : MKey × String) : Int × Int × String :=
  (-(refinecount ts x.1 : Int), -(x.1.args.length : Int), x.2)

/-- The non-strict claim-side best-effort order. -/
def claimC2RankLe (ts : TS) (a b : MKey × String) : Bool :=
  rank3LeII (claimC2Rank ts a) (claimC2Rank ts b)

/-- The code-side best-effort ranking as a non-strict order. -/
def bestRankLe (ts : TS) (a b : MKey × String) : Bool :=
  rank3LeI (refineopp ts a) (refineopp ts b)

/-- The code-side exact-match ranking as a non-strict order. -/
def exactRankLe (ts : TS) (a b : MKey × String) : Bool :=
  rank3Le (refinenum ts a) (refinenum ts b)

/-- The claim-side qualifier of hierarchy-aware binding as the claim words
it: the nearest ancestor (the last proper ancestor of the root-first
chain) whose method table declares the pair, else the class itself. -/
def claimC5Nearest (cs : Classes) (desc : ClassDesc) (key : MKey)
    (rtn : Option SemType) : String :=
  let ancestors := (classHeirarchyTop cs desc.name).dropLast
  match ancestors.reverse.find? (fun cn => declaresPair cs cn key rtn) with
  | some cn => cn
  | none => desc.name

/-- Number of earlier signature keys sharing the name of k in a method
item list: the sorted-order group index the claim describes. -/
def occBefore (items : List (MKey × Option SemType)) (k : MKey) : Nat :=
  ((items.takeWhile (fun kv => !(kv.1 == k))).filter (fun kv => kv.1.name == k.name)).length

/-- Number of items carrying a given signature-key name. -/
def countNameItems (items : List (MKey × Option SemType)) (n : String) : Nat :=
  (items.filter (fun kv => kv.1.name == n)).length

/-- The symbol the classpyx loop assigns to a non-private signature key
whose group has the given cardinality, at the given pre-increment
occurrence index. -/
def classSymOf (clsname : String) (cnt : Nat) (idx : Nat) (k : MKey)
    (r : Option SemType) : String :=
  if 1 < cnt then mangleName clsname k.name idx cnt
  else if r == none && (k.name == clsname || k.name == "__init__") && cnt == 1 then "__init__"
  else k.name

/-- The symbol the funcpyx loop assigns to a non-private signature key. -/
def funcSymOf (cnt : Nat) (idx : Nat) (k : MKey) : String :=
  if 1 < cnt then funcMangleName k.name idx cnt else k.name

/-- Runtime model of the release routine classpyx emits for parentless
classes: free(self._inst) runs exactly when the ownership flag
self._free_inst is set. -/
def deallocRuntime (free_inst : Bool) : Bool :=
  free_inst

/-- A fixture type-conversion service for concrete evaluations: type names
map to themselves, nothing is a refinement, nothing caches, conversions
are identities. -/
def ts0 : TS :=
  ⟨fun t => t.getD ("void"), fun t => t, fun t => t, fun _ => false,
   fun n _ _ => ⟨none, none, n, false⟩, fun n _ => ⟨none, none, n⟩,
   fun _ _ => ∅, fun _ => ∅,
   fun t => String.intercalate " " t, fun t => String.intercalate " " t,
   fun m => m⟩

/-- A fixture service whose native-to-managed conversion always caches in
a slot derived from the variable name. -/
def ts1 : TS :=
  ⟨fun t => t.getD ("void"), fun t => t, fun t => t, fun _ => false,
   fun n _ _ => ⟨none, none, "self._" ++ n, true⟩, fun n _ => ⟨none, none, n⟩,
   fun _ _ => ∅, fun _ => ∅,
   fun t => String.intercalate " " t, fun t => String.intercalate " " t,
   fun m => m⟩

/-- Fixture overload table: f(int) and f(str) under mangled names. -/
def kInt : MKey := ⟨"f", [⟨"x", "int", none⟩]⟩

/-- Fixture key of the one-string-argument variant. -/
def kStr : MKey := ⟨"f", [⟨"x", "str", none⟩]⟩

/-- Fixture mangled table of the f(int) / f(str) group. -/
def tblFS : List (MKey × String) := [(kInt, "_f_f_0"), (kStr, "_f_f_1")]

/-- Fixture call: one positional argument of runtime type int. -/
def callInt : PyCall := ⟨["int"], []⟩

/-- Fixture key of a one-argument variant of group g. -/
def kG1 : MKey := ⟨"g", [⟨"a", "int", none⟩]⟩

/-- Fixture key of a two-argument variant of group g. -/
def kG2 : MKey := ⟨"g", [⟨"a", "int", none⟩, ⟨"b", "int", none⟩]⟩

/-- Fixture mangled table of the two-variant group g. -/
def tblG : List (MKey × String) := [(kG1, "_g_0"), (kG2, "_g_1")]

/-- Fixture outcome function distinguishing the two g variants. -/
def outcomeG : String → Except PyErr Nat :=
  fun m => if m == "_g_0" then Except.ok 1 else Except.ok 2

/-- Fixture method key foo(int) for the hierarchy claims. -/
def kFoo : MKey := ⟨"foo", [⟨"x", "int", none⟩]⟩

/-- Fixture root class A declaring foo(int) -> int. -/
def descA : ClassDesc :=
  ⟨"A", "ns", "a.h", none, [], [(kFoo, some ("int"))], ⟨none, [], []⟩, "", "", "",
   "cpp_a.pxd"⟩

/-- Fixture middle class B, child of A, also declaring foo(int) -> int. -/
def descB : ClassDesc :=
  ⟨"B", "ns", "b.h", some ["A"], [], [(kFoo, some ("int"))], ⟨none, [], []⟩, "", "", "",
   "cpp_b.pxd"⟩

/-- Fixture leaf class C, child of B, inheriting foo without redeclaring
it. -/
def descC : ClassDesc :=
  ⟨"C", "ns", "c.h", some ["B"], [], [], ⟨none, [], []⟩, "", "", "", "cpp_c.pxd"⟩

/-- Fixture flat class namespace of the A, B, C chain. -/
def csABC : Classes := [("A", descA), ("B", descB), ("C", descC)]

/-- Fixture constructor key of class Foo with one int argument. -/
def kFooCtor : MKey := ⟨"Foo", [⟨"x", "int", none⟩]⟩

/-- Fixture class Foo with a single constructor. -/
def descFoo : ClassDesc :=
  ⟨"Foo", "ns", "foo.h", none, [], [(kFooCtor, none)], ⟨none, [], []⟩, "", "", "",
   "cpp_foo.pxd"⟩

/-- The cache backing-slot declarations of the pxd class body, without the
parentless handle and flag prefix. -/
def classpxdCacheDecls (ts : TS) (desc : ClassDesc) : List String :=
  (pySortedBy cmpAttr desc.attrs).foldl (fun body p =>
    if strStartsWith p.1 ("_") then body
    else
      let r := ts.cython_c2py p.1 (some p.2) ⟨c2pyInstNameDefault, none, c2pyCachedDefault⟩
      if r.iscached then
        body ++ ["cdef public " ++ ts.cython_cytype p.2 ++ " " ++ r.rtn]
      else body) []

/-- Decimal read-back of a digit list, used to invert the decimal
rendering of indices. -/
def readNatAux (a : Nat) (cs : List Char) : Nat :=
  cs.foldl (fun acc c => 10 * acc + (c.toNat - 48)) a

/-- Decimal read-back of a string. -/
def readNat (s : String) : Nat :=
  readNatAux 0 s.data

/-- Fixture call that matches no variant of the f or g groups exactly. -/
def callFloat : PyCall := ⟨["float"], []⟩

/-- Fixture outcome raising a tolerated error for every variant. -/
def outcomeTol : String → Except PyErr Nat :=
  fun _ => Except.error (PyErr.typeError ("bad"))

/-- Fixture outcome raising a tolerated error first, then a non-tolerated
error. -/
def outcomeMix : String → Except PyErr Nat :=
  fun m => if m == "_g_0" then Except.error (PyErr.typeError ("bad"))
    else Except.error (PyErr.otherError ("ValueError") ("boom"))

/-- Fixture constructor keys of a class Pt with two constructors. -/
def kPtInt : MKey := ⟨"Pt", [⟨"x", "int", none⟩]⟩

/-- Fixture second constructor key of Pt. -/
def kPtStr : MKey := ⟨"Pt", [⟨"x", "str", none⟩]⟩

/-- Fixture class Pt with an overloaded constructor group of size two. -/
def descPt : ClassDesc :=
  ⟨"Pt", "ns", "pt.h", none, [], [(kPtInt, none), (kPtStr, none)], ⟨none, [], []⟩,
   "", "", "", "cpp_pt.pxd"⟩

/-- Fixture signature keys of an overloaded free function h. -/
def kHInt : MKey := ⟨"h", [⟨"a", "int", none⟩]⟩

/-- Fixture second signature key of h. -/
def kHStr : MKey := ⟨"h", [⟨"a", "str", none⟩]⟩

/-- Fixture free-function description with an overloaded group of size
two. -/
def descH : FuncDesc :=
  ⟨"h", "ns", "h.h", [(kHInt, some ("int")), (kHStr, some ("int"))], none, "", "",
   "cpp_h.pxd"⟩

/-- Fixture module carrying no members, with only the pyx slot set. -/
def modPyxOnly : ModDesc :=
  ⟨none, none, some ("m.pyx"), "", none, []⟩

/-- Fixture module with only the srcpxd slot set. -/
def modSrcOnly : ModDesc :=
  ⟨some ("cpp_m.pxd"), none, none, "", none, []⟩

/-- Fixture key of an overloaded uppercase-named method Bar(int). -/
def kBar1 : MKey := ⟨"Bar", [⟨"x", "int", none⟩]⟩

/-- Fixture key of an overloaded uppercase-named method Bar(str). -/
def kBar2 : MKey := ⟨"Bar", [⟨"x", "str", none⟩]⟩

/-- Fixture class Foo with a single-member constructor group and an
overloaded uppercase-named method group of size two. -/
def descMix : ClassDesc :=
  ⟨"Foo", "ns", "foo.h", none, [],
   [(kFooCtor, none), (kBar1, some ("int")), (kBar2, some ("int"))],
   ⟨none, [], []⟩, "", "", "", "cpp_foo.pxd"⟩

theorem pyStrLe_total (a b : String) : pyStrLe a b = true ∨ pyStrLe b a = true :=
  pyStrLeIsTotal.total a b

theorem pyStrLe_trans (a b c : String) (hab : pyStrLe a b = true)
    (hbc : pyStrLe b c = true) : pyStrLe a c = true :=
  pyStrLeIsTrans.trans a b c hab hbc

theorem rank3Le_eq_true_iff (a b : Nat × Nat × String) :
    rank3Le a b = true ↔
      a.1 < b.1 ∨ (a.1 = b.1 ∧ (a.2.1 < b.2.1 ∨ (a.2.1 = b.2.1 ∧ pyStrLe a.2.2 b.2.2 = true))) := by
  unfold rank3Le
  by_cases h1 : a.1 < b.1
  · simp [h1]
  · by_cases h2 : b.1 < a.1
    · simp only [if_neg h1, if_pos h2]
      constructor
      · intro h; cases h
      · rintro (h | ⟨e, _⟩) <;> omega
    · have e1 : a.1 = b.1 := le_antisymm (not_lt.mp h2) (not_lt.mp h1)
      by_cases h3 : a.2.1 < b.2.1
      · simp [h1, h2, h3, e1]
      · by_cases h4 : b.2.1 < a.2.1
        · simp only [if_neg h1, if_neg h2, if_neg h3, if_pos h4]
          constructor
          · intro h; cases h
          · rintro (h | ⟨e, h | ⟨e2, _⟩⟩) <;> omega
        · have e2 : a.2.1 = b.2.1 := le_antisymm (not_lt.mp h4) (not_lt.mp h3)
          simp [h1, h2, h3, h4, e1, e2]

theorem rank3LeI_eq_true_iff (a b : Int × Nat × String) :
    rank3LeI a b = true ↔
      a.1 < b.1 ∨ (a.1 = b.1 ∧ (a.2.1 < b.2.1 ∨ (a.2.1 = b.2.1 ∧ pyStrLe a.2.2 b.2.2 = true))) := by
  unfold rank3LeI
  by_cases h1 : a.1 < b.1
  · simp [h1]
  · by_cases h2 : b.1 < a.1
    · simp only [if_neg h1, if_pos h2]
      constructor
      · intro h; cases h
      · rintro (h | ⟨e, _⟩) <;> omega
    · have e1 : a.1 = b.1 := le_antisymm (not_lt.mp h2) (not_lt.mp h1)
      by_cases h3 : a.2.1 < b.2.1
      · simp [h1, h2, h3, e1]
      · by_cases h4 : b.2.1 < a.2.1
        · simp only [if_neg h1, if_neg h2, if_neg h3, if_pos h4]
          constructor
          · intro h; cases h
          · rintro (h | ⟨e, h | ⟨e2, _⟩⟩) <;> omega
        · have e2 : a.2.1 = b.2.1 := le_antisymm (not_lt.mp h4) (not_lt.mp h3)
          simp [h1, h2, h3, h4, e1, e2]

theorem rank3Le_total (a b : Nat × Nat × String) : (rank3Le a b || rank3Le b a) = true := by
  rw [Bool.or_eq_true, rank3Le_eq_true_iff, rank3Le_eq_true_iff]
  rcases lt_trichotomy a.1 b.1 with h | h | h
  · exact Or.inl (Or.inl h)
  · rcases lt_trichotomy a.2.1 b.2.1 with h2 | h2 | h2
    · exact Or.inl (Or.inr ⟨h, Or.inl h2⟩)
    · rcases pyStrLe_total a.2.2 b.2.2 with h3 | h3
      · exact Or.inl (Or.inr ⟨h, Or.inr ⟨h2, h3⟩⟩)
      · exact Or.inr (Or.inr ⟨h.symm, Or.inr ⟨h2.symm, h3⟩⟩)
    · exact Or.inr (Or.inr ⟨h.symm, Or.inl h2⟩)
  · exact Or.inr (Or.inl h)

theorem rank3Le_trans (a b c : Nat × Nat × String) (hab : rank3Le a b = true)
    (hbc : rank3Le b c = true) : rank3Le a c = true := by
  rw [rank3Le_eq_true_iff] at hab hbc ⊢
  rcases hab with h | ⟨e, h⟩
  · rcases hbc with g | ⟨f, g⟩
    · exact Or.inl (lt_trans h g)
    · exact Or.inl (f ▸ h)
  · rcases hbc with g | ⟨f, g⟩
    · exact Or.inl (e ▸ g)
    · refine Or.inr ⟨e.trans f, ?_⟩
      rcases h with h | ⟨e2, h⟩
      · rcases g with g | ⟨f2, g⟩
        · exact Or.inl (lt_trans h g)
        · exact Or.inl (f2 ▸ h)
      · rcases g with g | ⟨f2, g⟩
        · exact Or.inl (e2 ▸ g)
        · exact Or.inr ⟨e2.trans f2, pyStrLe_trans _ _ _ h g⟩

theorem rank3LeI_total (a b : Int × Nat × String) : (rank3LeI a b || rank3LeI b a) = true := by
  rw [Bool.or_eq_true, rank3LeI_eq_true_iff, rank3LeI_eq_true_iff]
  rcases lt_trichotomy a.1 b.1 with h | h | h
  · exact Or.inl (Or.inl h)
  · rcases lt_trichotomy a.2.1 b.2.1 with h2 | h2 | h2
    · exact Or.inl (Or.inr ⟨h, Or.inl h2⟩)
    · rcases pyStrLe_total a.2.2 b.2.2 with h3 | h3
      · exact Or.inl (Or.inr ⟨h, Or.inr ⟨h2, h3⟩⟩)
      · exact Or.inr (Or.inr ⟨h.symm, Or.inr ⟨h2.symm, h3⟩⟩)
    · exact Or.inr (Or.inr ⟨h.symm, Or.inl h2⟩)
  · exact Or.inr (Or.inl h)

theorem rank3LeI_trans (a b c : Int × Nat × String) (hab : rank3LeI a b = true)
    (hbc : rank3LeI b c = true) : rank3LeI a c = true := by
  rw [rank3LeI_eq_true_iff] at hab hbc ⊢
  rcases hab with h | ⟨e, h⟩
  · rcases hbc with g | ⟨f, g⟩
    · exact Or.inl (lt_trans h g)
    · exact Or.inl (f ▸ h)
  · rcases hbc with g | ⟨f, g⟩
    · exact Or.inl (e ▸ g)
    · refine Or.inr ⟨e.trans f, ?_⟩
      rcases h with h | ⟨e2, h⟩
      · rcases g with g | ⟨f2, g⟩
        · exact Or.inl (lt_trans h g)
        · exact Or.inl (f2 ▸ h)
      · rcases g with g | ⟨f2, g⟩
        · exact Or.inl (e2 ▸ g)
        · exact Or.inr ⟨e2.trans f2, pyStrLe_trans _ _ _ h g⟩

theorem execIfChain_eq_find (actual : List DispPair) (chain : List (List DispPair × String)) :
    execIfChain actual chain =
      (chain.find? (fun rm => subsetB actual rm.1)).map (fun rm => rm.2) := by
  induction chain with
  | nil => rfl
  | cons h t ih =>
    obtain ⟨req, m⟩ := h
    by_cases hc : subsetB actual req
    · simp [execIfChain, List.find?, hc]
    · simp only [execIfChain, if_neg hc, ih, List.find?]
      rw [Bool.eq_false_iff.mpr hc]

theorem exactOrder_perm (ts : TS) (tbl : List (MKey × String)) :
    List.Perm tbl (exactOrder ts tbl) :=
  (List.perm_insertionSort _ tbl).symm

theorem exactOrder_sorted (ts : TS) (tbl : List (MKey × String)) :
    (exactOrder ts tbl).Pairwise (fun a b => exactRankLe ts a b = true) := by
  unfold exactOrder
  simp only [exactRankLe]
  haveI : IsTrans (MKey × String)
      (fun a b => rank3Le (refinenum ts a) (refinenum ts b) = true) :=
    ⟨fun a b c hab hbc =>
      rank3Le_trans (refinenum ts a) (refinenum ts b) (refinenum ts c) hab hbc⟩
  haveI : IsTotal (MKey × String)
      (fun a b => rank3Le (refinenum ts a) (refinenum ts b) = true) :=
    ⟨fun a b => by
      have h := rank3Le_total (refinenum ts a) (refinenum ts b)
      rw [Bool.or_eq_true] at h
      exact h⟩
  exact List.sorted_insertionSort _ tbl

theorem bestOrder_perm (ts : TS) (tbl : List (MKey × String)) :
    List.Perm tbl (bestOrder ts tbl) :=
  (List.perm_insertionSort _ tbl).symm

theorem bestOrder_sorted (ts : TS) (tbl : List (MKey × String)) :
    (bestOrder ts tbl).Pairwise (fun a b => bestRankLe ts a b = true) := by
  unfold bestOrder
  simp only [bestRankLe]
  haveI : IsTrans (MKey × String)
      (fun a b => rank3LeI (refineopp ts a) (refineopp ts b) = true) :=
    ⟨fun a b c hab hbc =>
      rank3LeI_trans (refineopp ts a) (refineopp ts b) (refineopp ts c) hab hbc⟩
  haveI : IsTotal (MKey × String)
      (fun a b => rank3LeI (refineopp ts a) (refineopp ts b) = true) :=
    ⟨fun a b => by
      have h := rank3LeI_total (refineopp ts a) (refineopp ts b)
      rw [Bool.or_eq_true] at h
      exact h⟩
  exact List.sorted_insertionSort _ tbl

theorem find?_map_chain (ts : TS) (c : PyCall) (l : List (MKey × String)) :
    ((l.map (fun km => (requiredPairs ts km.1, km.2))).find?
        (fun rm => subsetB (actualPairs c) rm.1)) =
      (l.find? (fun km => subsetB (actualPairs c) (requiredPairs ts km.1))).map
        (fun km => (requiredPairs ts km.1, km.2)) := by
  induction l with
  | nil => rfl
  | cons h t ih =>
    by_cases hc : subsetB (actualPairs c) (requiredPairs ts h.1)
    · simp [List.find?, hc]
    · simp only [List.map_cons, List.find?]
      rw [Bool.eq_false_iff.mpr hc]
      simpa using ih

/-- C1, counterexample: for the group with variants f(int) and f(str) and
a call with one positional int argument, the emitted exact-match phase
selects the int variant (the actual-pair set is contained in its
required-pair set), while the claimed rule — required-pair set contained
in the actual-pair set — qualifies no variant at all, because every
required set also carries the keyword pair of its argument name. -/
theorem c1_counterexample :
    exactSelect ts0 tblFS callInt = some ("_f_f_0") ∧
    claimC1Select ts0 tblFS callInt = none := by
  decide

/-- C1 (amended): in the generated dispatcher exact-match phase, for every
overload group and every call, the variant selected is the first one — in
the order ranking variants with fewer refinement-typed arguments first,
then by ascending argument count, then by mangled name — whose required
set of (positional-index, dynamic-type) and (argument-name, dynamic-type)
pairs is a SUPERSET of the pair set computed from the actual call (the
subset direction of the claim is reversed); the first qualifying match
wins and later variants are not attempted. -/
theorem c1_exact_match_selects_first_superset (ts : TS) (tbl : List (MKey × String))
    (c : PyCall) :
    ∃ l : List (MKey × String),
      List.Perm tbl l ∧
      l.Pairwise (fun a b => exactRankLe ts a b = true) ∧
      exactSelect ts tbl c =
        (l.find? (fun km => subsetB (actualPairs c) (requiredPairs ts km.1))).map
          (fun km => km.2) := by
  refine ⟨exactOrder ts tbl, exactOrder_perm ts tbl, exactOrder_sorted ts tbl, ?_⟩
  unfold exactSelect exactChain
  rw [execIfChain_eq_find, find?_map_chain]
  simp [Option.map_map]
  rfl

theorem execTryChain_cons {V : Type} (name : String) (outcome : String → Except PyErr V)
    (a : String) (t : List String) :
    execTryChain name outcome (a :: t) =
      match outcome a with
      | Except.ok v => Except.ok v
      | Except.error e =>
        if tolerated e then execTryChain name outcome t else Except.error e := rfl

theorem execTryChain_ok_first {V : Type} (name : String) (outcome : String → Except PyErr V) :
    ∀ (l : List String) (v : V), execTryChain name outcome l = Except.ok v →
      ∃ pre m post, l = pre ++ m :: post ∧ outcome m = Except.ok v ∧
        ∀ m' ∈ pre, isToleratedError (outcome m') = true := by
  intro l
  induction l with
  | nil => intro v h; simp [execTryChain] at h
  | cons a t ih =>
    intro v h
    rw [execTryChain_cons] at h
    cases ho : outcome a with
    | ok w =>
      simp only [ho] at h
      cases h
      exact ⟨[], a, t, rfl, ho, by intro m' hm'; cases hm'⟩
    | error e =>
      simp only [ho] at h
      by_cases hte : tolerated e = true
      · rw [if_pos hte] at h
        obtain ⟨pre, m, post, hl, hm, hpre⟩ := ih v h
        refine ⟨a :: pre, m, post, by simp [hl], hm, ?_⟩
        intro m' hm'
        rcases List.mem_cons.mp hm' with rfl | hmem
        · simp [isToleratedError, ho, hte]
        · exact hpre m' hmem
      · rw [if_neg hte] at h
        cases h

theorem execTryChain_all_tolerated {V : Type} (name : String)
    (outcome : String → Except PyErr V) :
    ∀ l : List String, (∀ m ∈ l, isToleratedError (outcome m) = true) →
      execTryChain name outcome l = Except.error (dispatchFailure name) := by
  intro l
  induction l with
  | nil => intro _; rfl
  | cons a t ih =>
    intro h
    have ha := h a (List.mem_cons_self a t)
    rw [execTryChain_cons]
    cases ho : outcome a with
    | ok w => rw [ho] at ha; simp [isToleratedError] at ha
    | error e =>
      rw [ho] at ha
      simp only [isToleratedError] at ha
      simp only [ho, if_pos ha]
      exact ih (fun m hm => h m (List.mem_cons_of_mem a hm))

theorem execTryChain_propagates {V : Type} (name : String)
    (outcome : String → Except PyErr V) :
    ∀ (pre : List String) (m : String) (post : List String) (e : PyErr),
      (∀ m' ∈ pre, isToleratedError (outcome m') = true) →
      outcome m = Except.error e → tolerated e = false →
      execTryChain name outcome (pre ++ m :: post) = Except.error e := by
  intro pre
  induction pre with
  | nil =>
    intro m post e _ hm hte
    rw [List.nil_append, execTryChain_cons]
    simp [hm, hte]
  | cons a t ih =>
    intro m post e hpre hm hte
    have ha := hpre a (List.mem_cons_self a t)
    rw [List.cons_append, execTryChain_cons]
    cases ho : outcome a with
    | ok w => rw [ho] at ha; simp [isToleratedError] at ha
    | error e2 =>
      rw [ho] at ha
      simp only [isToleratedError] at ha
      simp only [ho, if_pos ha]
      exact ih m post e (fun m' hm' => hpre m' (List.mem_cons_of_mem a hm')) hm hte

/-- C2, counterexample: for a group of two variants with no
refinement-typed arguments and argument counts one and two, the emitted
best-effort phase attempts the one-argument variant first — the order is
by ASCENDING argument count, so it is not sorted by the claimed ranking
(descending argument count), and with both variants succeeding the
dispatcher returns the one-argument result where the claim predicts the
two-argument one. -/
theorem c2_counterexample :
    (bestOrder ts0 tblG).map (fun km => km.2) = ["_g_0", "_g_1"] ∧
    ¬ (bestOrder ts0 tblG).Pairwise (fun a b => claimC2RankLe ts0 a b = true) ∧
    runBestEffort ts0 ("g") tblG outcomeG = Except.ok 1 := by
  decide

/-- C2 (amended): the generated dispatcher best-effort phase attempts
variants in an order that ranks variants with more refinement-typed
arguments first, then by ASCENDING argument count (not descending as
claimed), then by mangled name, and the first variant completing without a
tolerated error is the result. -/
theorem c2_best_effort_order (V : Type) (ts : TS) (name : String)
    (tbl : List (MKey × String)) (outcome : String → Except PyErr V) :
    ∃ l : List (MKey × String),
      List.Perm tbl l ∧
      l.Pairwise (fun a b => bestRankLe ts a b = true) ∧
      runBestEffort ts name tbl outcome =
        execTryChain name outcome (l.map (fun km => km.2)) ∧
      (∀ v : V, runBestEffort ts name tbl outcome = Except.ok v →
        ∃ pre m post, l.map (fun km => km.2) = pre ++ m :: post ∧
          outcome m = Except.ok v ∧
          ∀ m' ∈ pre, isToleratedError (outcome m') = true) := by
  refine ⟨bestOrder ts tbl, bestOrder_perm ts tbl, bestOrder_sorted ts tbl, rfl, ?_⟩
  intro v h
  exact execTryChain_ok_first name outcome _ v h

/-- C6 (confirmed): the generated dispatcher best-effort phase suppresses
exactly the three error kinds RuntimeError, TypeError and NameError while
attempting variants and propagates any other error, and when no variant
succeeds in either phase — no exact-type match and every attempted variant
raising a tolerated error — the dispatcher raises the dispatch-failure
RuntimeError whose message names the failed method. -/
theorem c6_dispatch_error_handling (V : Type) (ts : TS) (name : String)
    (tbl : List (MKey × String)) (c : PyCall) (outcome : String → Except PyErr V) :
    ((∀ m ∈ (bestOrder ts tbl).map (fun km => km.2), isToleratedError (outcome m) = true) →
      exactSelect ts tbl c = none →
      runDispatcher ts name tbl c outcome = Except.error (dispatchFailure name)) ∧
    (∀ (pre : List String) (m : String) (post : List String) (e : PyErr),
      (bestOrder ts tbl).map (fun km => km.2) = pre ++ m :: post →
      (∀ m' ∈ pre, isToleratedError (outcome m') = true) →
      outcome m = Except.error e → tolerated e = false →
      exactSelect ts tbl c = none →
      runDispatcher ts name tbl c outcome = Except.error e) ∧
    (∃ msg : String, dispatchFailure name = PyErr.runtimeError msg ∧
      containsSub msg name = true) := by
  refine ⟨?_, ?_, ?_⟩
  · intro htol hnone
    unfold runDispatcher
    rw [hnone]
    exact execTryChain_all_tolerated name outcome _ htol
  · intro pre m post e hsplit hpre hm hte hnone
    unfold runDispatcher
    rw [hnone]
    unfold runBestEffort
    rw [hsplit]
    exact execTryChain_propagates name outcome pre m post e hpre hm hte
  · refine ⟨"method " ++ name ++ "() could not be dispatched", rfl, ?_⟩
    unfold containsSub
    rw [decide_eq_true_iff]
    refine ⟨("method ").data, ("() could not be dispatched").data, ?_⟩
    rw [← String.data_append, ← String.data_append]

/-- C6, witness: at the concrete two-variant group g, a call matching no
variant exactly, and outcomes raising only tolerated errors, the
dispatcher raises the dispatch failure; and with a non-tolerated error at
the second variant that error propagates. -/
theorem c6_dispatch_error_handling_witness :
    runDispatcher ts0 ("g") tblG callFloat outcomeTol =
      Except.error (dispatchFailure ("g")) ∧
    runDispatcher ts0 ("g") tblG callFloat outcomeMix =
      Except.error (PyErr.otherError ("ValueError") ("boom")) := by
  constructor
  · exact (c6_dispatch_error_handling Nat ts0 ("g") tblG callFloat outcomeTol).1
      (by decide) (by decide)
  · exact (c6_dispatch_error_handling Nat ts0 ("g") tblG callFloat outcomeMix).2.1
      ["_g_0"] ("_g_1") [] (PyErr.otherError ("ValueError") ("boom"))
      (by decide) (by decide) (by decide) (by decide) (by decide)

/-- C2, witness: the amended best-effort statement applied at the concrete
group g with both variants succeeding. -/
theorem c2_best_effort_order_witness :
    ∃ l : List (MKey × String),
      List.Perm tblG l ∧
      l.Pairwise (fun a b => bestRankLe ts0 a b = true) ∧
      runBestEffort ts0 ("g") tblG outcomeG =
        execTryChain ("g") outcomeG (l.map (fun km => km.2)) ∧
      (∀ v : Nat, runBestEffort ts0 ("g") tblG outcomeG = Except.ok v →
        ∃ pre m post, l.map (fun km => km.2) = pre ++ m :: post ∧
          outcomeG m = Except.ok v ∧
          ∀ m' ∈ pre, isToleratedError (outcomeG m') = true) :=
  c2_best_effort_order Nat ts0 ("g") tblG outcomeG

theorem class_heirarchy_extends (cs : Classes) :
    ∀ (fuel : Nat) (cls : String) (ch : List String),
      ∃ pre, class_heirarchy cs fuel cls ch = pre ++ ch := by
  intro fuel
  induction fuel with
  | zero => intro cls ch; exact ⟨[], rfl⟩
  | succ n ih =>
    intro cls ch
    cases h : getClass cs cls with
    | none => exact ⟨[], by simp [class_heirarchy, h]⟩
    | some d =>
      cases hp : d.parents with
      | none => exact ⟨[], by simp [class_heirarchy, h, hp]⟩
      | some ps =>
        have hfold : ∀ (l : List String) (acc : List String), ∃ pre,
            l.foldl (fun acc p => class_heirarchy cs n p (p :: acc)) acc = pre ++ acc := by
          intro l
          induction l with
          | nil => intro acc; exact ⟨[], rfl⟩
          | cons p t iht =>
            intro acc
            obtain ⟨pre1, h1⟩ := ih p (p :: acc)
            obtain ⟨pre2, h2⟩ := iht (class_heirarchy cs n p (p :: acc))
            refine ⟨pre2 ++ (pre1 ++ [p]), ?_⟩
            rw [List.foldl_cons, h2, h1]
            simp
        by_cases hc : (ch.length == 0 || !(ch.head? == some cls)) = true
        · obtain ⟨pre, hpre⟩ := hfold ps.reverse (cls :: ch)
          refine ⟨pre ++ [cls], ?_⟩
          simp only [class_heirarchy, h, hp]
          rw [if_pos hc, hpre]
          simp
        · obtain ⟨pre, hpre⟩ := hfold ps.reverse ch
          refine ⟨pre, ?_⟩
          simp only [class_heirarchy, h, hp]
          rw [if_neg hc, hpre]

theorem classHeirarchyTop_self (cs : Classes) (desc : ClassDesc)
    (hself : getClass cs desc.name = some desc) (hp : desc.parents ≠ none) :
    ∃ pre, classHeirarchyTop cs desc.name = pre ++ [desc.name] := by
  cases hps : desc.parents with
  | none => exact absurd hps hp
  | some ps =>
    have hfold : ∀ (l : List String) (acc : List String), ∃ pre,
        l.foldl (fun acc p => class_heirarchy cs cs.length p (p :: acc)) acc =
          pre ++ acc := by
      intro l
      induction l with
      | nil => intro acc; exact ⟨[], rfl⟩
      | cons p t iht =>
        intro acc
        obtain ⟨pre1, h1⟩ := class_heirarchy_extends cs cs.length p (p :: acc)
        obtain ⟨pre2, h2⟩ := iht (class_heirarchy cs cs.length p (p :: acc))
        refine ⟨pre2 ++ (pre1 ++ [p]), ?_⟩
        rw [List.foldl_cons, h2, h1]
        simp
    obtain ⟨pre, hpre⟩ := hfold ps.reverse [desc.name]
    refine ⟨pre, ?_⟩
    unfold classHeirarchyTop classHeirarchyFuel
    simp only [class_heirarchy, hself, hps]
    simpa using hpre

theorem classHeirarchyTop_root (cs : Classes) (desc : ClassDesc)
    (hself : getClass cs desc.name = some desc) (hp : desc.parents = none) :
    classHeirarchyTop cs desc.name = [] := by
  unfold classHeirarchyTop classHeirarchyFuel
  simp [class_heirarchy, hself, hp]

/-- C5, counterexample: with A the root declaring foo(int) -> int, B a
child of A redeclaring the identical pair, and C a child of B inheriting
foo, the generated call for C.foo is qualified against A — the first
match of the root-first walk and hence the farthest ancestor — while the
nearest ancestor declaring the pair is B. -/
theorem c5_counterexample :
    (method_instance_names ts0 csABC descC kFoo (some ("int"))).2 = "A" ∧
    method_instance_names ts0 csABC descC kFoo (some ("int")) =
      ("(<A *> self._inst)", "A") ∧
    claimC5Nearest csABC descC kFoo (some ("int")) = "B" ∧
    dictGetK descB.methods kFoo = some (some ("int")) ∧
    ("A" : String) ≠ "B" := by
  refine ⟨rfl, rfl, rfl, rfl, ?_⟩
  decide

/-- C5 (amended): for a method the class does not itself map to the given
return type, the generated call is qualified against the handle type of
the FIRST class of the root-first linearized ancestor chain — the
root-most ancestor, not the nearest one — whose own method table contains
the identical signature-key to return-type pair; if no ancestor declares
the pair, the call is qualified against the current class itself. -/
theorem c5_hierarchy_binding (ts : TS) (cs : Classes) (desc : ClassDesc) (key : MKey)
    (rtn : Option SemType)
    (hself : getClass cs desc.name = some desc)
    (hinh : ¬ dictGetK desc.methods key = some rtn) :
    ∃ anc : List String,
      (classHeirarchyTop cs desc.name = anc ++ [desc.name] ∨
        (classHeirarchyTop cs desc.name = [] ∧ anc = [])) ∧
      method_instance_names ts cs desc key rtn =
        (match anc.find? (fun cn => declaresPair cs cn key rtn) with
          | some cn => ("(<" ++ ts.cython_ctype (some cn) ++ " *> self._inst)", cn)
          | none =>
            ("(<" ++ ts.cython_ctype (some desc.name) ++ " *> self._inst)", desc.name)) := by
  have hselfdecl : declaresPair cs desc.name key rtn = false := by
    unfold declaresPair
    rw [hself]
    exact beq_eq_false_iff_ne.mpr hinh
  cases hps : desc.parents with
  | none =>
    refine ⟨[], Or.inr ⟨classHeirarchyTop_root cs desc hself hps, rfl⟩, ?_⟩
    unfold method_instance_names
    rw [classHeirarchyTop_root cs desc hself hps]
  | some ps =>
    obtain ⟨pre, hpre⟩ := classHeirarchyTop_self cs desc hself (by rw [hps]; intro h; cases h)
    refine ⟨pre, Or.inl hpre, ?_⟩
    unfold method_instance_names
    rw [hpre]
    simp only [List.find?_append]
    cases hfind : pre.find? (fun cn => declaresPair cs cn key rtn) with
    | some cn => simp [hfind]
    | none =>
      simp [hfind, List.find?, hselfdecl]

/-- C5, witness: the amended hierarchy-binding statement applied at the
concrete chain, with C inheriting foo from its ancestors. -/
theorem c5_hierarchy_binding_witness :
    ∃ anc : List String,
      (classHeirarchyTop csABC descC.name = anc ++ [descC.name] ∨
        (classHeirarchyTop csABC descC.name = [] ∧ anc = [])) ∧
      method_instance_names ts0 csABC descC kFoo (some ("int")) =
        (match anc.find? (fun cn => declaresPair csABC cn kFoo (some ("int"))) with
          | some cn => ("(<" ++ ts0.cython_ctype (some cn) ++ " *> self._inst)", cn)
          | none =>
            ("(<" ++ ts0.cython_ctype (some descC.name) ++ " *> self._inst)",
              descC.name)) :=
  c5_hierarchy_binding ts0 csABC descC kFoo (some ("int")) (by decide) (by decide)

theorem gen_property_get_cached (ts : TS) (name : String) (t : SemType)
    (cns : List String) (inst : String) :
    (gen_property_get ts name t (some cns) inst).2 =
      some (if (ts.cython_c2py name (some t)
          ⟨inst, c2pyCachePrefixDefault, c2pyCachedDefault⟩).iscached
        then cns ++ [(ts.cython_c2py name (some t)
          ⟨inst, c2pyCachePrefixDefault, c2pyCachedDefault⟩).rtn]
        else cns) := by
  unfold gen_property_get
  cases hic : (ts.cython_c2py name (some t)
      ⟨inst, c2pyCachePrefixDefault, c2pyCachedDefault⟩).iscached <;> simp [hic]

/-- C7 (confirmed): the emitted setter of a cached property consists of
the setter a non-caching property would receive followed by exactly one
invalidation line, resetting the slot named by the conversion service; and
inside gen_property the setter receives exactly the slot the getter would
populate when the conversion is cacheable, and no slot otherwise. -/
theorem c7_setter_invalidates_getter_slot (ts : TS) (name : String) (t : SemType)
    (doc : Option String) (cns : List String) (inst : String) :
    (∀ c : String, gen_property_set ts name t inst (some c) =
      gen_property_set ts name t inst none ++ [indent1 4 (c ++ " = None")]) ∧
    gen_property ts name t doc (some cns) inst =
      (["property " ++ name ++ ":"] ++
        (match doc with
          | none => []
          | some d => indentS ("\"\"\"" ++ d ++ "\"\"\"")) ++
        indentL (gen_property_get ts name t (some cns) inst).1 ++ [""] ++
        indentL (gen_property_set ts name t inst
          (if (ts.cython_c2py name (some t)
              ⟨inst, c2pyCachePrefixDefault, c2pyCachedDefault⟩).iscached
            then some (ts.cython_c2py name (some t)
              ⟨inst, c2pyCachePrefixDefault, c2pyCachedDefault⟩).rtn
            else none)) ++ ["", ""],
       some (if (ts.cython_c2py name (some t)
            ⟨inst, c2pyCachePrefixDefault, c2pyCachedDefault⟩).iscached
          then cns ++ [(ts.cython_c2py name (some t)
            ⟨inst, c2pyCachePrefixDefault, c2pyCachedDefault⟩).rtn]
          else cns)) := by
  constructor
  · intro c
    rfl
  · unfold gen_property
    rw [show (gen_property_get ts name t (some cns) inst) =
        ((gen_property_get ts name t (some cns) inst).1,
          (gen_property_get ts name t (some cns) inst).2) from rfl]
    rw [gen_property_get_cached]
    cases hic : (ts.cython_c2py name (some t)
        ⟨inst, c2pyCachePrefixDefault, c2pyCachedDefault⟩).iscached
    · simp
    · simp [List.getLast?_concat, Nat.add_comm]

theorem foldl_extends {α β : Type} (f : List α → β → List α) (g : β → List α)
    (hf : ∀ b p, f b p = b ++ g p) :
    ∀ (l : List β) (b : List α), l.foldl f b = b ++ l.foldl f [] := by
  intro l
  induction l with
  | nil => intro b; simp
  | cons p t ih =>
    intro b
    rw [List.foldl_cons, List.foldl_cons, hf, hf, ih (b ++ g p), ih ([] ++ g p)]
    simp

theorem classpxdBody_split (ts : TS) (desc : ClassDesc) :
    classpxdBody ts desc =
      (if desc.parents == none then ["cdef void * _inst", "cdef public bint _free_inst"]
        else []) ++ classpxdCacheDecls ts desc := by
  unfold classpxdBody classpxdCacheDecls
  refine foldl_extends _
    (fun p => if strStartsWith p.1 ("_") then []
      else if (ts.cython_c2py p.1 (some p.2)
          ⟨c2pyInstNameDefault, none, c2pyCachedDefault⟩).iscached
        then ["cdef public " ++ ts.cython_cytype p.2 ++ " " ++
          (ts.cython_c2py p.1 (some p.2)
            ⟨c2pyInstNameDefault, none, c2pyCachedDefault⟩).rtn]
        else []) ?_ _ _
  intro b p
  by_cases h1 : strStartsWith p.1 ("_")
  · simp [h1]
  · by_cases h2 : (ts.cython_c2py p.1 (some p.2)
        ⟨c2pyInstNameDefault, none, c2pyCachedDefault⟩).iscached
    · simp [h1, h2]
    · simp [h1, h2]

/-- C9 (confirmed): a parentless class declares the native handle and the
public ownership flag at the head of its pxd body and receives a release
routine freeing the handle only under the ownership flag; a class with a
declared parent receives neither the handle and flag declarations nor a
release routine. -/
theorem c9_handle_flag_release (ts : TS) (desc : ClassDesc) :
    (desc.parents = none →
      classpxdBody ts desc =
        ["cdef void * _inst", "cdef public bint _free_inst"] ++
          classpxdCacheDecls ts desc ∧
      classpyxDealloc desc =
        ["def __dealloc__(self):", "    if self._free_inst:",
          "        free(self._inst)"] ∧
      deallocRuntime true = true ∧ deallocRuntime false = false) ∧
    (∀ ps : List String, desc.parents = some ps →
      classpxdBody ts desc = classpxdCacheDecls ts desc ∧
      classpyxDealloc desc = []) := by
  constructor
  · intro hp
    refine ⟨?_, ?_, rfl, rfl⟩
    · rw [classpxdBody_split, hp]
      rfl
    · unfold classpyxDealloc
      rw [hp]
      rfl
  · intro ps hp
    constructor
    · rw [classpxdBody_split, hp]
      rfl
    · unfold classpyxDealloc
      rw [hp]
      rfl

/-- C9, witness: the statement applied at the parentless fixture class Foo
and at the child class B. -/
theorem c9_handle_flag_release_witness :
    (classpxdBody ts0 descFoo =
      ["cdef void * _inst", "cdef public bint _free_inst"] ++
        classpxdCacheDecls ts0 descFoo ∧
      classpyxDealloc descFoo =
        ["def __dealloc__(self):", "    if self._free_inst:",
          "        free(self._inst)"] ∧
      deallocRuntime true = true ∧ deallocRuntime false = false) ∧
    (classpxdBody ts0 descB = classpxdCacheDecls ts0 descB ∧
      classpyxDealloc descB = []) :=
  ⟨(c9_handle_flag_release ts0 descFoo).1 rfl,
    (c9_handle_flag_release ts0 descB).2 ["A"] rfl⟩

/-- C8 (confirmed): dependency registration is idempotent under set
semantics — registering the same tuple any positive number of times yields
the same accumulated set as registering it once — and the accumulated sets
are rendered without duplicates, sorted, with each registered line
appearing exactly once in the module header. -/
theorem c8_dependency_registration_idempotent (ts : TS) (t : DepTup)
    (s : Finset DepTup) (n : Nat) (h : 0 < n) :
    (registerDepTuple t)^[n] s = registerDepTuple t s ∧
    (renderCimports ts (registerDepTuple t s)).Nodup ∧
    List.Sorted (fun a b => pyStrLe a b = true)
      (renderCimports ts (registerDepTuple t s)) ∧
    (renderCimports ts (registerDepTuple t s)).count (ts.cython_cimports t) = 1 ∧
    (renderImports ts (registerDepTuple t s)).Nodup ∧
    List.Sorted (fun a b => pyStrLe a b = true)
      (renderImports ts (registerDepTuple t s)) ∧
    (renderImports ts (registerDepTuple t s)).count (ts.cython_imports t) = 1 := by
  have idem : ∀ s' : Finset DepTup,
      registerDepTuple t (registerDepTuple t s') = registerDepTuple t s' := by
    intro s'
    unfold registerDepTuple
    exact Finset.insert_idem t s'
  have iter1 : ∀ m : Nat, (registerDepTuple t)^[m] (registerDepTuple t s) =
      registerDepTuple t s := by
    intro m
    induction m with
    | zero => rfl
    | succ k ih =>
      rw [Function.iterate_succ_apply, idem, ih]
  refine ⟨?_, ?_, ?_, ?_, ?_, ?_, ?_⟩
  · cases n with
    | zero => cases h
    | succ k =>
      rw [Function.iterate_succ_apply, iter1]
  · exact Finset.sort_nodup _ _
  · exact Finset.sort_sorted _ _
  · refine List.count_eq_one_of_mem (Finset.sort_nodup _ _) ?_
    unfold renderCimports
    rw [Finset.mem_sort]
    exact Finset.mem_image.mpr ⟨t, Finset.mem_insert_self t s, rfl⟩
  · exact Finset.sort_nodup _ _
  · exact Finset.sort_sorted _ _
  · refine List.count_eq_one_of_mem (Finset.sort_nodup _ _) ?_
    unfold renderImports
    rw [Finset.mem_sort]
    exact Finset.mem_image.mpr ⟨t, Finset.mem_insert_self t s, rfl⟩

/-- C8, witness: the statement applied at a concrete tuple, the empty
accumulator and three registrations. -/
theorem c8_dependency_registration_idempotent_witness :
    (registerDepTuple ["numpy", "np"])^[3] (∅ : Finset DepTup) =
      registerDepTuple ["numpy", "np"] ∅ ∧
    (renderCimports ts0 (registerDepTuple ["numpy", "np"] ∅)).Nodup ∧
    List.Sorted (fun a b => pyStrLe a b = true)
      (renderCimports ts0 (registerDepTuple ["numpy", "np"] ∅)) ∧
    (renderCimports ts0 (registerDepTuple ["numpy", "np"] ∅)).count
      (ts0.cython_cimports ["numpy", "np"]) = 1 ∧
    (renderImports ts0 (registerDepTuple ["numpy", "np"] ∅)).Nodup ∧
    List.Sorted (fun a b => pyStrLe a b = true)
      (renderImports ts0 (registerDepTuple ["numpy", "np"] ∅)) ∧
    (renderImports ts0 (registerDepTuple ["numpy", "np"] ∅)).count
      (ts0.cython_imports ["numpy", "np"]) = 1 :=
  c8_dependency_registration_idempotent ts0 ["numpy", "np"] ∅ 3 (by decide)

theorem foldl_skip_append {α β : Type} (p : α → Bool) (g : α → β) :
    ∀ (l : List α) (acc : List β),
      l.foldl (fun acc x => if p x then acc else acc ++ [g x]) acc =
        acc ++ (l.filter (fun x => !(p x))).map g := by
  intro l
  induction l with
  | nil => intro acc; simp
  | cons x t ih =>
    intro acc
    by_cases hp : p x
    · simp [hp, ih, List.filter_cons]
    · simp [hp, ih, List.filter_cons]

/-- C10 (confirmed): each pipeline driver returns an entry exactly for the
modules whose corresponding filename slot is not None — gencpppxd filters
on srcpxd_filename, genpxd on pxd_filename, genpyx on pyx_filename — and
skips the rest silently. -/
theorem c10_driver_filename_filtering (ts : TS) (et : Option String) (env : Env)
    (classes : Option Classes) :
    gencpppxd ts env et =
      (env.filter (fun nm => !(nm.2.srcpxd_filename == none))).map
        (fun nm => (nm.1, modcpppxd ts nm.2 et)) ∧
    genpxd ts env =
      (env.filter (fun nm => !(nm.2.pxd_filename == none))).map
        (fun nm => (nm.1, modpxd ts nm.2)) ∧
    genpyx ts env classes =
      (env.filter (fun nm => !(nm.2.pyx_filename == none))).map
        (fun nm => (nm.1, modpyx ts nm.2
          (some (match classes with
            | some c => c
            | none => genpyxClasses env)))) := by
  refine ⟨?_, ?_, ?_⟩
  · unfold gencpppxd
    rw [foldl_skip_append (fun nm => nm.2.srcpxd_filename == none)
      (fun nm => (nm.1, modcpppxd ts nm.2 et)) env []]
    rfl
  · unfold genpxd
    rw [foldl_skip_append (fun nm => nm.2.pxd_filename == none)
      (fun nm => (nm.1, modpxd ts nm.2)) env []]
    rfl
  · unfold genpyx
    rw [foldl_skip_append (fun nm => nm.2.pyx_filename == none)
      (fun nm => (nm.1, modpyx ts nm.2
        (some (match classes with
          | some c => c
          | none => genpyxClasses env)))) env []]
    rfl

theorem readNatAux_append (a : Nat) (xs ys : List Char) :
    readNatAux a (xs ++ ys) = readNatAux (readNatAux a xs) ys := by
  unfold readNatAux
  exact List.foldl_append _ _ xs ys

theorem toDigitsCore_shift (b : Nat) :
    ∀ (f n : Nat) (ds : List Char),
      Nat.toDigitsCore b f n ds = Nat.toDigitsCore b f n [] ++ ds := by
  intro f
  induction f with
  | zero => intro n ds; rfl
  | succ k ih =>
    intro n ds
    simp only [Nat.toDigitsCore]
    by_cases h : n / b = 0
    · simp [h]
    · rw [if_neg h, if_neg h, ih (n / b) [Nat.digitChar (n % b)],
        ih (n / b) (Nat.digitChar (n % b) :: ds)]
      simp

theorem toDigitsCore_fuel (b : Nat) (hb : 2 ≤ b) :
    ∀ (n f g : Nat), n < f → n < g →
      Nat.toDigitsCore b f n [] = Nat.toDigitsCore b g n [] := by
  intro n
  induction n using Nat.strong_induction_on with
  | _ n ih =>
    intro f g hf hg
    cases f with
    | zero => omega
    | succ fk =>
      cases g with
      | zero => omega
      | succ gk =>
        simp only [Nat.toDigitsCore]
        by_cases h : n / b = 0
        · simp [h]
        · rw [if_neg h, if_neg h,
            toDigitsCore_shift b fk (n / b) [Nat.digitChar (n % b)],
            toDigitsCore_shift b gk (n / b) [Nat.digitChar (n % b)]]
          have hn : 0 < n := by
            rcases Nat.eq_zero_or_pos n with h0 | h0
            · subst h0; simp at h
            · exact h0
          have hlt : n / b < n := Nat.div_lt_self hn (by omega)
          rw [ih (n / b) hlt fk gk (by omega) (by omega)]

theorem digitChar_val (m : Nat) (h : m < 10) : (Nat.digitChar m).toNat - 48 = m := by
  interval_cases m <;> rfl

theorem readNat_toDigits (n : Nat) : readNatAux 0 (Nat.toDigits 10 n) = n := by
  induction n using Nat.strong_induction_on with
  | _ n ih =>
    unfold Nat.toDigits
    simp only [Nat.toDigitsCore]
    by_cases h : n / 10 = 0
    · rw [if_pos h]
      have hn : n < 10 := by omega
      have : n % 10 = n := Nat.mod_eq_of_lt hn
      unfold readNatAux
      simp [this, digitChar_val n hn]
    · rw [if_neg h]
      rw [toDigitsCore_shift 10 n (n / 10) [Nat.digitChar (n % 10)]]
      have hlt : n / 10 < n := Nat.div_lt_self (by omega) (by omega)
      have hfe : Nat.toDigitsCore 10 n (n / 10) [] =
          Nat.toDigitsCore 10 (n / 10 + 1) (n / 10) [] :=
        toDigitsCore_fuel 10 (by omega) (n / 10) n (n / 10 + 1) (by omega) (by omega)
      rw [hfe]
      rw [readNatAux_append]
      have ihv : readNatAux 0 (Nat.toDigits 10 (n / 10)) = n / 10 := ih (n / 10) hlt
      unfold Nat.toDigits at ihv
      rw [ihv]
      unfold readNatAux
      simp [digitChar_val (n % 10) (Nat.mod_lt n (by omega))]
      omega

theorem readNatAux_zeros (k : Nat) : ∀ a : Nat, a = 0 →
    readNatAux a (List.replicate k '0') = 0 := by
  induction k with
  | zero => intro a ha; simpa [readNatAux] using ha
  | succ m ih =>
    intro a ha
    subst ha
    rw [List.replicate_succ]
    unfold readNatAux
    rw [List.foldl_cons]
    exact ih _ (by rfl)

theorem repr_data_eq (n : Nat) : (Nat.repr n).data = Nat.toDigits 10 n := rfl

theorem readNat_padZeros (w n : Nat) : readNat (padZeros w n) = n := by
  unfold readNat padZeros
  rw [String.data_append]
  have hmk : (String.mk (List.replicate (w - (Nat.repr n).length) '0')).data =
      List.replicate (w - (Nat.repr n).length) '0' := rfl
  rw [hmk, readNatAux_append, readNatAux_zeros _ 0 rfl, repr_data_eq]
  exact readNat_toDigits n

theorem padZeros_inj (w a b : Nat) (h : padZeros w a = padZeros w b) : a = b := by
  have ha := readNat_padZeros w a
  have hb := readNat_padZeros w b
  rw [h] at ha
  rw [hb] at ha
  exact ha.symm

theorem toLower_digitChar (m : Nat) (h : m < 10) :
    Char.toLower (Nat.digitChar m) = Nat.digitChar m := by
  interval_cases m <;> decide

theorem toDigitsCore_toLower (f : Nat) :
    ∀ (n : Nat) (ds : List Char), (∀ c ∈ ds, Char.toLower c = c) →
      ∀ c ∈ Nat.toDigitsCore 10 f n ds, Char.toLower c = c := by
  induction f with
  | zero => intro n ds hds; exact hds
  | succ k ih =>
    intro n ds hds
    simp only [Nat.toDigitsCore]
    have hd : Char.toLower (Nat.digitChar (n % 10)) = Nat.digitChar (n % 10) :=
      toLower_digitChar (n % 10) (Nat.mod_lt _ (by omega))
    by_cases h : n / 10 = 0
    · rw [if_pos h]
      intro c hc
      rcases List.mem_cons.mp hc with rfl | hc
      · exact hd
      · exact hds c hc
    · rw [if_neg h]
      refine ih (n / 10) (Nat.digitChar (n % 10) :: ds) ?_
      intro c hc
      rcases List.mem_cons.mp hc with rfl | hc
      · exact hd
      · exact hds c hc

theorem padZeros_toLower (w n : Nat) :
    ∀ c ∈ (padZeros w n).data, Char.toLower c = c := by
  unfold padZeros
  rw [String.data_append]
  intro c hc
  rcases List.mem_append.mp hc with hc | hc
  · have : c = '0' := List.eq_of_mem_replicate hc
    subst this
    decide
  · rw [repr_data_eq] at hc
    exact toDigitsCore_toLower (n + 1) n [] (by intro c hc; cases hc) c hc

theorem strLower_append (a b : String) :
    strLower (a ++ b) = strLower a ++ strLower b := by
  unfold strLower
  rw [String.data_append]
  rw [List.map_append]
  rfl

theorem strLower_invariant (s : String) (h : ∀ c ∈ s.data, Char.toLower c = c) :
    strLower s = s := by
  unfold strLower
  have key : ∀ l : List Char, (∀ c ∈ l, Char.toLower c = c) →
      l.map Char.toLower = l := by
    intro l
    induction l with
    | nil => intro _; rfl
    | cons c t iht =>
      intro hl
      rw [List.map_cons, hl c (List.mem_cons_self c t),
        iht (fun x hx => hl x (List.mem_cons_of_mem c hx))]
  rw [key s.data h]

theorem string_append_left_cancel (a x y : String) (h : a ++ x = a ++ y) : x = y := by
  have hd : a.data ++ x.data = a.data ++ y.data := by
    rw [← String.data_append, ← String.data_append, h]
  exact String.ext (List.append_cancel_left hd)

theorem mangleName_inj (cls mname : String) (cnt i j : Nat)
    (h : mangleName cls mname i cnt = mangleName cls mname j cnt) : i = j := by
  unfold mangleName at h
  simp only [strLower_append] at h
  have hp : strLower (padZeros (numWidth cnt) i) = strLower (padZeros (numWidth cnt) j) :=
    string_append_left_cancel _ _ _ h
  rw [strLower_invariant _ (padZeros_toLower (numWidth cnt) i),
    strLower_invariant _ (padZeros_toLower (numWidth cnt) j)] at hp
  exact padZeros_inj (numWidth cnt) i j hp

theorem funcMangleName_inj (fname : String) (cnt i j : Nat)
    (h : funcMangleName fname i cnt = funcMangleName fname j cnt) : i = j := by
  unfold funcMangleName at h
  simp only [strLower_append] at h
  have hp : strLower (padZeros (numWidth cnt) i) = strLower (padZeros (numWidth cnt) j) :=
    string_append_left_cancel _ _ _ h
  rw [strLower_invariant _ (padZeros_toLower (numWidth cnt) i),
    strLower_invariant _ (padZeros_toLower (numWidth cnt) j)] at hp
  exact padZeros_inj (numWidth cnt) i j hp

theorem find?_cons_pos {α : Type} (p : α → Bool) (a : α) (l : List α) (h : p a = true) :
    (a :: l).find? p = some a := by
  rw [List.find?_cons, h]

theorem find?_cons_neg {α : Type} (p : α → Bool) (a : α) (l : List α) (h : p a = false) :
    (a :: l).find? p = l.find? p := by
  rw [List.find?_cons, h]

theorem find?_map_dictSet {α : Type} (k : MKey) (v : α) :
    ∀ m : List (MKey × α),
      ((m.map (fun p => if p.1 == k then (k, v) else p)).find? (fun p => p.1 == k)) =
        (m.find? (fun p => p.1 == k)).map (fun p => if p.1 == k then (k, v) else p) := by
  intro m
  induction m with
  | nil => rfl
  | cons q t iht =>
    by_cases hq : (q.1 == k) = true
    · have hq2 : ((if q.1 == k then (k, v) else q).1 == k) = true := by
        rw [if_pos hq]
        exact beq_self_eq_true k
      rw [List.map_cons, find?_cons_pos (fun p : MKey × α => p.1 == k) _ _ hq2,
        find?_cons_pos (fun p : MKey × α => p.1 == k) _ _ hq]
      rfl
    · have hqf : (q.1 == k) = false := by simpa using hq
      have hmap : (if q.1 == k then (k, v) else q) = q := by
        rw [if_neg (by simpa using hq)]
      rw [List.map_cons, hmap, find?_cons_neg (fun p : MKey × α => p.1 == k) _ _ hqf,
        find?_cons_neg (fun p : MKey × α => p.1 == k) _ _ hqf, iht]

theorem dictGetK_dictSet_same {α : Type} (l : List (MKey × α)) (k : MKey) (v : α) :
    dictGetK (dictSet l k v) k = some v := by
  unfold dictSet dictGetK
  by_cases hany : l.any (fun p => p.1 == k) = true
  · rw [if_pos hany, ← List.map_reverse, find?_map_dictSet]
    have hex : ∃ p ∈ l.reverse, (p.1 == k) = true := by
      obtain ⟨p, hp, hpk⟩ := List.any_eq_true.mp hany
      exact ⟨p, List.mem_reverse.mpr hp, hpk⟩
    obtain ⟨p0, hfind⟩ := Option.isSome_iff_exists.mp (List.find?_isSome.mpr hex)
    rw [hfind]
    have hp0 : (p0.1 == k) = true := by
      have := List.find?_some hfind
      simpa using this
    have hpe : p0.1 = k := by simpa using hp0
    simp [hpe]
  · rw [if_neg hany, List.reverse_append]
    show ((((k, v) :: []) ++ l.reverse).find? (fun p => p.1 == k)).map (fun p => p.2) =
      some v
    rw [List.cons_append, find?_cons_pos (fun p : MKey × α => p.1 == k) _ _ (beq_self_eq_true k)]
    rfl

theorem dictGetK_dictSet_ne {α : Type} (l : List (MKey × α)) (k k' : MKey) (v : α)
    (h : ¬ k' = k) :
    dictGetK (dictSet l k v) k' = dictGetK l k' := by
  unfold dictSet dictGetK
  by_cases hany : l.any (fun p => p.1 == k) = true
  · rw [if_pos hany, ← List.map_reverse]
    have key : ∀ m : List (MKey × α),
        (((m.map (fun p => if p.1 == k then (k, v) else p)).find?
            (fun p => p.1 == k')).map (fun p => p.2)) =
          ((m.find? (fun p => p.1 == k')).map (fun p => p.2)) := by
      intro m
      induction m with
      | nil => rfl
      | cons q t iht =>
        rw [List.map_cons]
        by_cases hq : (q.1 == k') = true
        · have hqk : (q.1 == k) = false := by
            have hqe : q.1 = k' := by simpa using hq
            rw [hqe]
            exact beq_eq_false_iff_ne.mpr h
          have hmap : (if q.1 == k then (k, v) else q) = q := by
            rw [if_neg (by simp [hqk])]
          rw [hmap, find?_cons_pos (fun p : MKey × α => p.1 == k') _ _ hq,
            find?_cons_pos (fun p : MKey × α => p.1 == k') _ _ hq]
        · have hqf : (q.1 == k') = false := by simpa using hq
          have hq2 : ((if q.1 == k then (k, v) else q).1 == k') = false := by
            by_cases hqk : (q.1 == k) = true
            · rw [if_pos hqk]
              exact beq_eq_false_iff_ne.mpr (fun he => h he.symm)
            · rw [if_neg (by simpa using hqk)]
              exact hqf
          rw [find?_cons_neg (fun p : MKey × α => p.1 == k') _ _ hq2,
            find?_cons_neg (fun p : MKey × α => p.1 == k') _ _ hqf, iht]
    exact key l.reverse
  · rw [if_neg hany, List.reverse_append]
    show ((((k, v) :: []) ++ l.reverse).find? (fun p => p.1 == k')).map (fun p => p.2) =
      ((l.reverse.find? (fun p => p.1 == k')).map (fun p => p.2))
    rw [List.cons_append,
      find?_cons_neg (fun p : MKey × α => p.1 == k') _ _
        (beq_eq_false_iff_ne.mpr (fun he => h he.symm)), List.nil_append]

theorem dictSet_filter_ne {α : Type} (l : List (MKey × α)) (k : MKey) (v : α) (n : String)
    (h : ¬ k.name = n) :
    (dictSet l k v).filter (fun kv => kv.1.name == n) =
      l.filter (fun kv => kv.1.name == n) := by
  unfold dictSet
  by_cases hany : l.any (fun p => p.1 == k) = true
  · rw [if_pos hany]
    have key : ∀ m : List (MKey × α),
        (m.map (fun p => if p.1 == k then (k, v) else p)).filter
            (fun kv => kv.1.name == n) =
          m.filter (fun kv => kv.1.name == n) := by
      intro m
      induction m with
      | nil => rfl
      | cons q t iht =>
        rw [List.map_cons, List.filter_cons, List.filter_cons]
        by_cases hqk : (q.1 == k) = true
        · have hqeq : q.1 = k := by simpa using hqk
          have h1 : ((if q.1 == k then (k, v) else q).1.name == n) = false := by
            rw [if_pos hqk]
            exact beq_eq_false_iff_ne.mpr h
          have h2 : (q.1.name == n) = false := by
            rw [hqeq]
            exact beq_eq_false_iff_ne.mpr h
          rw [h1, h2]
          simpa using iht
        · have hmap : (if q.1 == k then (k, v) else q) = q := by
            rw [if_neg (by simpa using hqk)]
          rw [hmap, iht]
    exact key l
  · rw [if_neg hany, List.filter_append]
    have hnil : ([(k, v)].filter (fun kv => kv.1.name == n)) = [] := by
      simp [List.filter, beq_eq_false_iff_ne.mpr h]
    rw [hnil, List.append_nil]

theorem pyxLoop_nil (ts : TS) (cs : Classes) (desc : ClassDesc) (cnts : String → Nat)
    (st : PyxLoopState) : pyxLoop ts cs desc cnts [] st = st := rfl

theorem pyxLoop_cons (ts : TS) (cs : Classes) (desc : ClassDesc) (cnts : String → Nat)
    (item : MKey × Option SemType) (rest : List (MKey × Option SemType))
    (st : PyxLoopState) :
    pyxLoop ts cs desc cnts (item :: rest) st =
      pyxLoop ts cs desc cnts rest (pyxStep ts cs desc cnts st item) := rfl

theorem pyxStep_priv (ts : TS) (cs : Classes) (desc : ClassDesc) (cnts : String → Nat)
    (st : PyxLoopState) (item : MKey × Option SemType)
    (hp : strStartsWith item.1.name ("_") = true) :
    pyxStep ts cs desc cnts st item = st := by
  simp [pyxStep, hp]

theorem pyxStep_cur (ts : TS) (cs : Classes) (desc : ClassDesc) (cnts : String → Nat)
    (st : PyxLoopState) (item : MKey × Option SemType) (n : String) :
    (pyxStep ts cs desc cnts st item).cur n =
      if strStartsWith item.1.name ("_") = true then st.cur n
      else if n == item.1.name then st.cur n + 1 else st.cur n := by
  by_cases hp : strStartsWith item.1.name ("_") = true
  · rw [pyxStep_priv ts cs desc cnts st item hp, if_pos hp]
  · rw [if_neg hp]
    obtain ⟨mkey, mrtn⟩ := item
    cases mrtn with
    | none =>
      by_cases hd : (!(mkey.name == desc.name) && !(mkey.name == "__init__")) = true
      · simp [pyxStep, hp, hd]
      · simp [pyxStep, hp, hd]
    | some rt => simp [pyxStep, hp]

theorem pyxStep_mangled_self (ts : TS) (cs : Classes) (desc : ClassDesc)
    (cnts : String → Nat) (st : PyxLoopState) (item : MKey × Option SemType)
    (hp : strStartsWith item.1.name ("_") = false) :
    dictGetK (pyxStep ts cs desc cnts st item).mangled item.1 =
      some (classSymOf desc.name (cnts item.1.name) (st.cur item.1.name) item.1 item.2) := by
  obtain ⟨mkey, mrtn⟩ := item
  cases mrtn with
  | some rt =>
    simp only [pyxStep]
    simp [hp]
    rw [dictGetK_dictSet_same]
    simp [classSymOf]
  | none =>
    by_cases hx : (mkey.name == desc.name) = true
    · have hd : (!(mkey.name == desc.name) && !(mkey.name == "__init__")) = false := by
        simp [hx]
      by_cases hc : (cnts mkey.name == 1) = true
      · have hc' : cnts mkey.name = 1 := by simpa using hc
        simp [pyxStep, hp, hd, hc]
        rw [dictGetK_dictSet_same]
        simp [classSymOf, hx, hc']
      · have hc' : (cnts mkey.name == 1) = false := by simpa using hc
        simp [pyxStep, hp, hd, hc']
        rw [dictGetK_dictSet_same]
        simp [classSymOf, hc']
    · by_cases hy : (mkey.name == "__init__") = true
      · exfalso
        have hni : mkey.name = "__init__" := by simpa using hy
        rw [hni] at hp
        exact absurd hp (by decide)
      · have hx' : (mkey.name == desc.name) = false := by simpa using hx
        have hy' : (mkey.name == "__init__") = false := by simpa using hy
        have hd : (!(mkey.name == desc.name) && !(mkey.name == "__init__")) = true := by
          simp [hx', hy']
        simp [pyxStep, hp, hd]
        rw [dictGetK_dictSet_same]
        simp [classSymOf, hx', hy']

theorem pyxStep_mangled_ne (ts : TS) (cs : Classes) (desc : ClassDesc)
    (cnts : String → Nat) (st : PyxLoopState) (item : MKey × Option SemType)
    (k : MKey) (hk : ¬ k = item.1) :
    dictGetK (pyxStep ts cs desc cnts st item).mangled k = dictGetK st.mangled k := by
  by_cases hp : strStartsWith item.1.name ("_") = true
  · rw [pyxStep_priv ts cs desc cnts st item hp]
  · obtain ⟨mkey, mrtn⟩ := item
    cases mrtn with
    | some rt =>
      simp [pyxStep, hp]
      exact dictGetK_dictSet_ne _ _ _ _ hk
    | none =>
      by_cases hd : (!(mkey.name == desc.name) && !(mkey.name == "__init__")) = true
      · simp [pyxStep, hp, hd]
        exact dictGetK_dictSet_ne _ _ _ _ hk
      · by_cases hc : (cnts mkey.name == 1) = true
        · simp [pyxStep, hp, hd, hc]
          rw [dictGetK_dictSet_ne _ _ _ _ hk, dictGetK_dictSet_ne _ _ _ _ hk]
        · have hc' : (cnts mkey.name == 1) = false := by simpa using hc
          simp [pyxStep, hp, hd, hc']
          exact dictGetK_dictSet_ne _ _ _ _ hk

theorem pyxStep_cevents_of_ne (ts : TS) (cs : Classes) (desc : ClassDesc)
    (cnts : String → Nat) (st : PyxLoopState) (item : MKey × Option SemType)
    (hn : ¬ item.1.name = desc.name) :
    (pyxStep ts cs desc cnts st item).cevents = st.cevents := by
  by_cases hp : strStartsWith item.1.name ("_") = true
  · rw [pyxStep_priv ts cs desc cnts st item hp]
  · obtain ⟨mkey, mrtn⟩ := item
    cases mrtn with
    | some rt => simp [pyxStep, hp]
    | none =>
      have hy : (mkey.name == "__init__") = false := by
        apply beq_eq_false_iff_ne.mpr
        intro he
        exact hp (by rw [he]; decide)
      have hx : (mkey.name == desc.name) = false := beq_eq_false_iff_ne.mpr hn
      have hd : (!(mkey.name == desc.name) && !(mkey.name == "__init__")) = true := by
        simp [hx, hy]
      simp [pyxStep, hp, hd]

theorem pyxStep_cevents_mem (ts : TS) (cs : Classes) (desc : ClassDesc)
    (cnts : String → Nat) (st : PyxLoopState) (item : MKey × Option SemType)
    (ev : PyxEvent) (hev : ev ∈ st.cevents) :
    ev ∈ (pyxStep ts cs desc cnts st item).cevents := by
  by_cases hp : strStartsWith item.1.name ("_") = true
  · rw [pyxStep_priv ts cs desc cnts st item hp]; exact hev
  · obtain ⟨mkey, mrtn⟩ := item
    cases mrtn with
    | some rt => simpa [pyxStep, hp] using hev
    | none =>
      by_cases hd : (!(mkey.name == desc.name) && !(mkey.name == "__init__")) = true
      · simpa [pyxStep, hp, hd] using hev
      · simp [pyxStep, hp, hd, hev]

theorem pyxStep_cevents_ctor1 (ts : TS) (cs : Classes) (desc : ClassDesc)
    (cnts : String → Nat) (st : PyxLoopState) (item : MKey × Option SemType)
    (hp : strStartsWith item.1.name ("_") = false) (hr : item.2 = none)
    (horc : (item.1.name == desc.name || item.1.name == "__init__") = true)
    (h1 : cnts item.1.name = 1) :
    (pyxStep ts cs desc cnts st item).cevents = st.cevents ++
      [PyxEvent.ctor ⟨item.1.name, "__init__", desc.name, item.1.args,
        doc_add_sig ((dictGet desc.docstrings.meths item.1.name).getD "") item.1.name
          item.1.args true,
        some desc.srcpxd_filename,
        (method_instance_names ts cs desc item.1 none).1⟩] := by
  obtain ⟨mkey, mrtn⟩ := item
  cases mrtn with
  | some rt => simp at hr
  | none =>
    have horc2 : mkey.name = desc.name ∨ mkey.name = "__init__" := by simpa using horc
    have hd : (!(mkey.name == desc.name) && !(mkey.name == "__init__")) = false := by
      rcases horc2 with hx | hy
      · simp [hx]
      · simp [hy]
    have h1' : cnts mkey.name = 1 := h1
    simp [pyxStep, hp, hd, h1']

theorem pyxStep_cevents_ctorN (ts : TS) (cs : Classes) (desc : ClassDesc)
    (cnts : String → Nat) (st : PyxLoopState) (item : MKey × Option SemType)
    (hp : strStartsWith item.1.name ("_") = false) (hr : item.2 = none)
    (horc : (item.1.name == desc.name || item.1.name == "__init__") = true)
    (hN : 1 < cnts item.1.name) :
    (pyxStep ts cs desc cnts st item).cevents = st.cevents ++
      [PyxEvent.ctor ⟨item.1.name,
        mangleName desc.name item.1.name (st.cur item.1.name) (cnts item.1.name),
        desc.name, item.1.args,
        doc_add_sig ((dictGet desc.docstrings.meths item.1.name).getD "") item.1.name
          item.1.args true,
        some desc.srcpxd_filename,
        (method_instance_names ts cs desc item.1 none).1⟩] ++
      (if st.cur item.1.name + 1 = cnts item.1.name then
        [PyxEvent.disp ⟨"__init__",
          (dictSet st.mangled item.1
            (mangleName desc.name item.1.name (st.cur item.1.name)
              (cnts item.1.name))).filter (fun kv => kv.1.name == item.1.name),
          doc_add_sig ((dictGet desc.docstrings.meths item.1.name).getD "") item.1.name
            item.1.args true, false⟩]
      else []) := by
  obtain ⟨mkey, mrtn⟩ := item
  cases mrtn with
  | some rt => simp at hr
  | none =>
    have horc2 : mkey.name = desc.name ∨ mkey.name = "__init__" := by simpa using horc
    have hd : (!(mkey.name == desc.name) && !(mkey.name == "__init__")) = false := by
      rcases horc2 with hx | hy
      · simp [hx]
      · simp [hy]
    have hN2 : 1 < cnts mkey.name := hN
    have hc : (cnts mkey.name == 1) = false := by
      rw [beq_eq_false_iff_ne]
      omega
    simp [pyxStep, hp, hd, hc, hN]

theorem occBefore_cons_self (item : MKey × Option SemType)
    (rest : List (MKey × Option SemType)) (k : MKey) (h : item.1 = k) :
    occBefore (item :: rest) k = 0 := by
  unfold occBefore
  have hb : (!(item.1 == k)) = false := by simp [h]
  rw [List.takeWhile_cons, hb]
  rfl

theorem occBefore_cons_ne (item : MKey × Option SemType)
    (rest : List (MKey × Option SemType)) (k : MKey) (h : ¬ item.1 = k) :
    occBefore (item :: rest) k =
      (if (item.1.name == k.name) = true then 1 else 0) + occBefore rest k := by
  unfold occBefore
  have hb : (!(item.1 == k)) = true := by simp [beq_eq_false_iff_ne.mpr h]
  rw [List.takeWhile_cons, hb]
  by_cases hc : (item.1.name == k.name) = true
  · simp [List.filter_cons, hc]
    omega
  · have hc' : (item.1.name == k.name) = false := by simpa using hc
    simp [List.filter_cons, hc']

theorem occBefore_inj : ∀ (items : List (MKey × Option SemType)) (k1 k2 : MKey)
    (r1 r2 : Option SemType), (k1, r1) ∈ items → (k2, r2) ∈ items → ¬ k1 = k2 →
    k2.name = k1.name → ¬ occBefore items k1 = occBefore items k2 := by
  intro items
  induction items with
  | nil => intro k1 k2 r1 r2 h1 _ _ _; exact absurd h1 (List.not_mem_nil _)
  | cons item rest ih =>
    intro k1 k2 r1 r2 h1 h2 hne hname heq
    by_cases e1 : item.1 = k1
    · have e2 : ¬ item.1 = k2 := by rw [e1]; exact hne
      rw [occBefore_cons_self _ _ _ e1, occBefore_cons_ne _ _ _ e2] at heq
      have hnn : (item.1.name == k2.name) = true := by rw [e1, hname]; simp
      rw [hnn, if_pos rfl] at heq
      omega
    · by_cases e2 : item.1 = k2
      · rw [occBefore_cons_self _ _ _ e2, occBefore_cons_ne _ _ _ e1] at heq
        have hnn : (item.1.name == k1.name) = true := by rw [e2, hname]; simp
        rw [hnn, if_pos rfl] at heq
        omega
      · rw [occBefore_cons_ne _ _ _ e1, occBefore_cons_ne _ _ _ e2, hname] at heq
        have htail : occBefore rest k1 = occBefore rest k2 := Nat.add_left_cancel heq
        have h1' : (k1, r1) ∈ rest := by
          rcases List.mem_cons.mp h1 with he | hm
          · exact absurd (congrArg Prod.fst he).symm e1
          · exact hm
        have h2' : (k2, r2) ∈ rest := by
          rcases List.mem_cons.mp h2 with he | hm
          · exact absurd (congrArg Prod.fst he).symm e2
          · exact hm
        exact ih k1 k2 r1 r2 h1' h2' hne hname htail

theorem pyxLoop_mangled_untouched (ts : TS) (cs : Classes) (desc : ClassDesc)
    (cnts : String → Nat) :
    ∀ (items : List (MKey × Option SemType)) (st : PyxLoopState) (k : MKey),
      (∀ kv ∈ items, ¬ k = kv.1) →
      dictGetK (pyxLoop ts cs desc cnts items st).mangled k = dictGetK st.mangled k := by
  intro items
  induction items with
  | nil => intro st k _; rfl
  | cons item rest ih =>
    intro st k h
    rw [pyxLoop_cons, ih _ k (fun kv hkv => h kv (List.mem_cons_of_mem _ hkv)),
      pyxStep_mangled_ne ts cs desc cnts st item k (h item (List.mem_cons_self _ _))]

theorem pyxLoop_cevents_mem (ts : TS) (cs : Classes) (desc : ClassDesc)
    (cnts : String → Nat) :
    ∀ (items : List (MKey × Option SemType)) (st : PyxLoopState) (ev : PyxEvent),
      ev ∈ st.cevents → ev ∈ (pyxLoop ts cs desc cnts items st).cevents := by
  intro items
  induction items with
  | nil => intro st ev hev; exact hev
  | cons item rest ih =>
    intro st ev hev
    rw [pyxLoop_cons]
    exact ih _ ev (pyxStep_cevents_mem ts cs desc cnts st item ev hev)

theorem pyxLoop_mangled_assigned (ts : TS) (cs : Classes) (desc : ClassDesc)
    (cnts : String → Nat) :
    ∀ (items : List (MKey × Option SemType)) (st : PyxLoopState) (k : MKey)
      (r : Option SemType),
      ((items.map (fun kv => kv.1)).Nodup) → (k, r) ∈ items →
      strStartsWith k.name ("_") = false →
      dictGetK (pyxLoop ts cs desc cnts items st).mangled k =
        some (classSymOf desc.name (cnts k.name) (st.cur k.name + occBefore items k) k r) := by
  intro items
  induction items with
  | nil => intro st k r _ hmem _; exact absurd hmem (List.not_mem_nil _)
  | cons item rest ih =>
    intro st k r hnd hmem hp
    have hnd2 : (item.1 :: rest.map (fun kv => kv.1)).Nodup := by
      rw [← List.map_cons]
      exact hnd
    rcases List.mem_cons.mp hmem with heq | hmem2
    · subst heq
      rw [pyxLoop_cons]
      have hnotin : ∀ kv ∈ rest, ¬ k = kv.1 := by
        intro kv hkv hke
        have hkin : k ∈ rest.map (fun kv => kv.1) :=
          List.mem_map.mpr ⟨kv, hkv, hke.symm⟩
        exact (List.nodup_cons.mp hnd2).1 hkin
      rw [pyxLoop_mangled_untouched ts cs desc cnts rest _ k hnotin]
      have hself := pyxStep_mangled_self ts cs desc cnts st (k, r) hp
      simp only at hself
      rw [hself, occBefore_cons_self _ _ _ rfl, Nat.add_zero]
    · have hkne : ¬ k = item.1 := by
        intro hke
        have hkin : k ∈ rest.map (fun kv => kv.1) :=
          List.mem_map.mpr ⟨(k, r), hmem2, rfl⟩
        rw [hke] at hkin
        exact (List.nodup_cons.mp hnd2).1 hkin
      rw [pyxLoop_cons, ih _ k r (List.nodup_cons.mp hnd2).2 hmem2 hp]
      have hcur : (pyxStep ts cs desc cnts st item).cur k.name + occBefore rest k =
          st.cur k.name + occBefore (item :: rest) k := by
        rw [pyxStep_cur, occBefore_cons_ne _ _ _ (fun he => hkne he.symm)]
        by_cases hq : strStartsWith item.1.name ("_") = true
        · rw [if_pos hq]
          have hnn : (item.1.name == k.name) = false := by
            apply beq_eq_false_iff_ne.mpr
            intro he
            rw [he, hp] at hq
            exact absurd hq (by decide)
          rw [hnn, if_neg (by decide)]
          omega
        · rw [if_neg hq]
          by_cases hnn : (k.name == item.1.name) = true
          · have he : k.name = item.1.name := by simpa using hnn
            have hnn2 : (item.1.name == k.name) = true := by rw [he]; simp
            rw [if_pos hnn, hnn2, if_pos rfl]
            omega
          · have he2 : (item.1.name == k.name) = false := by
              apply beq_eq_false_iff_ne.mpr
              intro he
              exact hnn (by simp [he])
            rw [if_neg hnn, he2, if_neg (by decide)]
            omega
      rw [hcur]

theorem filter_name_map (l : List (MKey × Option SemType)) (n : String) :
    ((l.map (fun kv => kv.1)).filter (fun k => k.name == n)).length =
      (l.filter (fun kv => kv.1.name == n)).length := by
  induction l with
  | nil => rfl
  | cons kv t ih =>
    by_cases h : (kv.1.name == n) = true
    · simp [List.filter_cons, h, ih]
    · have h' : (kv.1.name == n) = false := by simpa using h
      simp [List.filter_cons, h', ih]

theorem countNameItems_sorted (l : List (MKey × Option SemType)) (n : String) :
    countNameItems (pySortedBy cmpItem l) n = countNameItems l n := by
  unfold countNameItems pySortedBy
  exact ((List.perm_insertionSort _ l).filter _).length_eq

theorem count0_eq_countNameItems (l : List (MKey × Option SemType)) (n : String) :
    count0 (l.map (fun kv => kv.1)) n = countNameItems (pySortedBy cmpItem l) n := by
  rw [countNameItems_sorted]
  exact filter_name_map l n

theorem pyxLoop_cevents_cnt1 (ts : TS) (cs : Classes) (desc : ClassDesc)
    (cnts : String → Nat) (h1 : cnts desc.name = 1)
    (hpriv : strStartsWith desc.name ("_") = false) :
    ∀ (items : List (MKey × Option SemType)) (st : PyxLoopState),
      (∀ kv ∈ items, kv.1.name = desc.name → kv.2 = none) →
      (pyxLoop ts cs desc cnts items st).cevents =
        st.cevents ++ (items.filter (fun kv => kv.1.name == desc.name)).map (fun kv =>
          PyxEvent.ctor ⟨kv.1.name, "__init__", desc.name, kv.1.args,
            doc_add_sig ((dictGet desc.docstrings.meths kv.1.name).getD "") kv.1.name
              kv.1.args true,
            some desc.srcpxd_filename,
            (method_instance_names ts cs desc kv.1 none).1⟩) := by
  intro items
  induction items with
  | nil => intro st _; simp [pyxLoop_nil]
  | cons item rest ih =>
    intro st h
    rw [pyxLoop_cons, ih _ (fun kv hkv ha => h kv (List.mem_cons_of_mem _ hkv) ha)]
    by_cases hx : item.1.name = desc.name
    · have hr : item.2 = none := h item (List.mem_cons_self _ _) hx
      have hpv : strStartsWith item.1.name ("_") = false := by rw [hx]; exact hpriv
      have horc : (item.1.name == desc.name || item.1.name == "__init__") = true := by
        simp [hx]
      have h1' : cnts item.1.name = 1 := by rw [hx]; exact h1
      rw [pyxStep_cevents_ctor1 ts cs desc cnts st item hpv hr horc h1']
      have hfx : (item.1.name == desc.name) = true := by simp [hx]
      simp [List.filter_cons, hfx]
    · rw [pyxStep_cevents_of_ne ts cs desc cnts st item hx]
      have hfx : (item.1.name == desc.name) = false := beq_eq_false_iff_ne.mpr hx
      simp [List.filter_cons, hfx]

theorem pyxLoop_cevents_shape (ts : TS) (cs : Classes) (desc : ClassDesc)
    (cnts : String → Nat) (hN : 1 < cnts desc.name)
    (hpriv : strStartsWith desc.name ("_") = false) :
    ∀ (items : List (MKey × Option SemType)) (st : PyxLoopState),
      (∀ kv ∈ items, kv.1.name = desc.name → kv.2 = none) →
      (∀ ev ∈ st.cevents,
        (∃ ce : CtorEmit, ev = PyxEvent.ctor ce ∧ ce.mname = desc.name ∧
          ∃ i, ce.mangled = mangleName desc.name desc.name i (cnts desc.name)) ∨
        (∃ de : DispEmit, ev = PyxEvent.disp de ∧ de.regname = "__init__" ∧
          de.hasrtn = false)) →
      ∀ ev ∈ (pyxLoop ts cs desc cnts items st).cevents,
        (∃ ce : CtorEmit, ev = PyxEvent.ctor ce ∧ ce.mname = desc.name ∧
          ∃ i, ce.mangled = mangleName desc.name desc.name i (cnts desc.name)) ∨
        (∃ de : DispEmit, ev = PyxEvent.disp de ∧ de.regname = "__init__" ∧
          de.hasrtn = false) := by
  intro items
  induction items with
  | nil => intro st _ hinv ev hev; exact hinv ev hev
  | cons item rest ih =>
    intro st h hinv
    rw [pyxLoop_cons]
    refine ih _ (fun kv hkv ha => h kv (List.mem_cons_of_mem _ hkv) ha) ?_
    intro ev hev
    by_cases hx : item.1.name = desc.name
    · have hr : item.2 = none := h item (List.mem_cons_self _ _) hx
      have hpv : strStartsWith item.1.name ("_") = false := by rw [hx]; exact hpriv
      have horc : (item.1.name == desc.name || item.1.name == "__init__") = true := by
        simp [hx]
      have hN' : 1 < cnts item.1.name := by rw [hx]; exact hN
      rw [pyxStep_cevents_ctorN ts cs desc cnts st item hpv hr horc hN'] at hev
      rcases List.mem_append.mp hev with hev1 | hev2
      · rcases List.mem_append.mp hev1 with hev0 | hevc
        · exact hinv ev hev0
        · left
          refine ⟨_, List.mem_singleton.mp hevc, ?_, st.cur item.1.name, ?_⟩
          · simp [hx]
          · simp [hx]
      · by_cases ht : st.cur item.1.name + 1 = cnts item.1.name
        · rw [if_pos ht] at hev2
          right
          exact ⟨_, List.mem_singleton.mp hev2, rfl, rfl⟩
        · rw [if_neg ht] at hev2
          exact absurd hev2 (List.not_mem_nil _)
    · rw [pyxStep_cevents_of_ne ts cs desc cnts st item hx] at hev
      exact hinv ev hev

theorem pyxLoop_ctor_disp (ts : TS) (cs : Classes) (desc : ClassDesc)
    (cnts : String → Nat) (hN : 1 < cnts desc.name)
    (hpriv : strStartsWith desc.name ("_") = false) :
    ∀ (items : List (MKey × Option SemType)) (st : PyxLoopState),
      (∀ kv ∈ items, kv.1.name = desc.name → kv.2 = none) →
      st.cur desc.name + countNameItems items desc.name = cnts desc.name →
      0 < countNameItems items desc.name →
      ∃ de : DispEmit, PyxEvent.disp de ∈ (pyxLoop ts cs desc cnts items st).cevents ∧
        de.regname = "__init__" ∧ de.hasrtn = false := by
  intro items
  induction items with
  | nil =>
    intro st _ _ h0
    exact absurd h0 (by simp [countNameItems])
  | cons item rest ih =>
    intro st h hsum h0
    rw [pyxLoop_cons]
    by_cases hx : item.1.name = desc.name
    · have hr : item.2 = none := h item (List.mem_cons_self _ _) hx
      have hpv : strStartsWith item.1.name ("_") = false := by rw [hx]; exact hpriv
      have horc : (item.1.name == desc.name || item.1.name == "__init__") = true := by
        simp [hx]
      have hN' : 1 < cnts item.1.name := by rw [hx]; exact hN
      have hfx : (item.1.name == desc.name) = true := by simp [hx]
      have hcnt_cons : countNameItems (item :: rest) desc.name =
          1 + countNameItems rest desc.name := by
        unfold countNameItems
        rw [List.filter_cons, hfx]
        simp
        omega
      by_cases hrest : countNameItems rest desc.name = 0
      · have htrig : st.cur item.1.name + 1 = cnts item.1.name := by
          rw [hx]
          rw [hcnt_cons, hrest] at hsum
          omega
        have hin : PyxEvent.disp ⟨"__init__",
            (dictSet st.mangled item.1
              (mangleName desc.name item.1.name (st.cur item.1.name)
                (cnts item.1.name))).filter (fun kv => kv.1.name == item.1.name),
            doc_add_sig ((dictGet desc.docstrings.meths item.1.name).getD "") item.1.name
              item.1.args true, false⟩ ∈ (pyxStep ts cs desc cnts st item).cevents := by
          rw [pyxStep_cevents_ctorN ts cs desc cnts st item hpv hr horc hN', if_pos htrig]
          exact List.mem_append_right _ (List.mem_singleton.mpr rfl)
        exact ⟨_, pyxLoop_cevents_mem ts cs desc cnts rest _ _ hin, rfl, rfl⟩
      · have hcur : (pyxStep ts cs desc cnts st item).cur desc.name =
            st.cur desc.name + 1 := by
          rw [pyxStep_cur]
          rw [if_neg (by simp [hpv])]
          have : (desc.name == item.1.name) = true := by rw [hx]; simp
          rw [this, if_pos rfl]
        refine ih _ (fun kv hkv ha => h kv (List.mem_cons_of_mem _ hkv) ha) ?_ ?_
        · rw [hcur]
          rw [hcnt_cons] at hsum
          omega
        · omega
    · have hfx : (item.1.name == desc.name) = false := beq_eq_false_iff_ne.mpr hx
      have hcnt_cons : countNameItems (item :: rest) desc.name =
          countNameItems rest desc.name := by
        unfold countNameItems
        rw [List.filter_cons, hfx]
        simp
      have hcur : (pyxStep ts cs desc cnts st item).cur desc.name = st.cur desc.name := by
        rw [pyxStep_cur]
        by_cases hq : strStartsWith item.1.name ("_") = true
        · rw [if_pos hq]
        · rw [if_neg hq]
          have : (desc.name == item.1.name) = false := by
            apply beq_eq_false_iff_ne.mpr
            intro he
            exact hx he.symm
          rw [this, if_neg (by decide)]
      refine ih _ (fun kv hkv ha => h kv (List.mem_cons_of_mem _ hkv) ha) ?_ ?_
      · rw [hcur]
        rw [hcnt_cons] at hsum
        exact hsum
      · rw [hcnt_cons] at h0
        exact h0

theorem funcLoop_nil (ts : TS) (desc : FuncDesc) (cnts : String → Nat)
    (inst_name : String) (st : FuncLoopState) :
    funcLoop ts desc cnts inst_name [] st = st := rfl

theorem funcLoop_cons (ts : TS) (desc : FuncDesc) (cnts : String → Nat)
    (inst_name : String) (item : MKey × Option SemType)
    (rest : List (MKey × Option SemType)) (st : FuncLoopState) :
    funcLoop ts desc cnts inst_name (item :: rest) st =
      funcLoop ts desc cnts inst_name rest (funcStep ts desc cnts inst_name st item) := rfl

theorem funcStep_priv (ts : TS) (desc : FuncDesc) (cnts : String → Nat)
    (inst_name : String) (st : FuncLoopState) (item : MKey × Option SemType)
    (hp : strStartsWith item.1.name ("_") = true) :
    funcStep ts desc cnts inst_name st item = st := by
  simp [funcStep, hp]

theorem funcStep_cur (ts : TS) (desc : FuncDesc) (cnts : String → Nat)
    (inst_name : String) (st : FuncLoopState) (item : MKey × Option SemType)
    (n : String) :
    (funcStep ts desc cnts inst_name st item).cur n =
      if strStartsWith item.1.name ("_") = true then st.cur n
      else if n == item.1.name then st.cur n + 1 else st.cur n := by
  by_cases hp : strStartsWith item.1.name ("_") = true
  · rw [funcStep_priv ts desc cnts inst_name st item hp, if_pos hp]
  · rw [if_neg hp]
    simp [funcStep, hp]

theorem funcStep_mangled_self (ts : TS) (desc : FuncDesc) (cnts : String → Nat)
    (inst_name : String) (st : FuncLoopState) (item : MKey × Option SemType)
    (hp : strStartsWith item.1.name ("_") = false) :
    dictGetK (funcStep ts desc cnts inst_name st item).mangled item.1 =
      some (funcSymOf (cnts item.1.name) (st.cur item.1.name) item.1) := by
  simp [funcStep, hp]
  rw [dictGetK_dictSet_same]
  simp [funcSymOf]

theorem funcStep_mangled_ne (ts : TS) (desc : FuncDesc) (cnts : String → Nat)
    (inst_name : String) (st : FuncLoopState) (item : MKey × Option SemType)
    (k : MKey) (hk : ¬ k = item.1) :
    dictGetK (funcStep ts desc cnts inst_name st item).mangled k =
      dictGetK st.mangled k := by
  by_cases hp : strStartsWith item.1.name ("_") = true
  · rw [funcStep_priv ts desc cnts inst_name st item hp]
  · simp [funcStep, hp]
    exact dictGetK_dictSet_ne _ _ _ _ hk

theorem funcLoop_mangled_untouched (ts : TS) (desc : FuncDesc) (cnts : String → Nat)
    (inst_name : String) :
    ∀ (items : List (MKey × Option SemType)) (st : FuncLoopState) (k : MKey),
      (∀ kv ∈ items, ¬ k = kv.1) →
      dictGetK (funcLoop ts desc cnts inst_name items st).mangled k =
        dictGetK st.mangled k := by
  intro items
  induction items with
  | nil => intro st k _; rfl
  | cons item rest ih =>
    intro st k h
    rw [funcLoop_cons, ih _ k (fun kv hkv => h kv (List.mem_cons_of_mem _ hkv)),
      funcStep_mangled_ne ts desc cnts inst_name st item k
        (h item (List.mem_cons_self _ _))]

theorem funcLoop_mangled_assigned (ts : TS) (desc : FuncDesc) (cnts : String → Nat)
    (inst_name : String) :
    ∀ (items : List (MKey × Option SemType)) (st : FuncLoopState) (k : MKey)
      (r : Option SemType),
      ((items.map (fun kv => kv.1)).Nodup) → (k, r) ∈ items →
      strStartsWith k.name ("_") = false →
      dictGetK (funcLoop ts desc cnts inst_name items st).mangled k =
        some (funcSymOf (cnts k.name) (st.cur k.name + occBefore items k) k) := by
  intro items
  induction items with
  | nil => intro st k r _ hmem _; exact absurd hmem (List.not_mem_nil _)
  | cons item rest ih =>
    intro st k r hnd hmem hp
    have hnd2 : (item.1 :: rest.map (fun kv => kv.1)).Nodup := by
      rw [← List.map_cons]
      exact hnd
    rcases List.mem_cons.mp hmem with heq | hmem2
    · subst heq
      rw [funcLoop_cons]
      have hnotin : ∀ kv ∈ rest, ¬ k = kv.1 := by
        intro kv hkv hke
        have hkin : k ∈ rest.map (fun kv => kv.1) :=
          List.mem_map.mpr ⟨kv, hkv, hke.symm⟩
        exact (List.nodup_cons.mp hnd2).1 hkin
      rw [funcLoop_mangled_untouched ts desc cnts inst_name rest _ k hnotin]
      have hself := funcStep_mangled_self ts desc cnts inst_name st (k, r) hp
      simp only at hself
      rw [hself, occBefore_cons_self _ _ _ rfl, Nat.add_zero]
    · have hkne : ¬ k = item.1 := by
        intro hke
        have hkin : k ∈ rest.map (fun kv => kv.1) :=
          List.mem_map.mpr ⟨(k, r), hmem2, rfl⟩
        rw [hke] at hkin
        exact (List.nodup_cons.mp hnd2).1 hkin
      rw [funcLoop_cons, ih _ k r (List.nodup_cons.mp hnd2).2 hmem2 hp]
      have hcur : (funcStep ts desc cnts inst_name st item).cur k.name +
            occBefore rest k =
          st.cur k.name + occBefore (item :: rest) k := by
        rw [funcStep_cur, occBefore_cons_ne _ _ _ (fun he => hkne he.symm)]
        by_cases hq : strStartsWith item.1.name ("_") = true
        · rw [if_pos hq]
          have hnn : (item.1.name == k.name) = false := by
            apply beq_eq_false_iff_ne.mpr
            intro he
            rw [he, hp] at hq
            exact absurd hq (by decide)
          rw [hnn, if_neg (by decide)]
          omega
        · rw [if_neg hq]
          by_cases hnn : (k.name == item.1.name) = true
          · have he : k.name = item.1.name := by simpa using hnn
            have hnn2 : (item.1.name == k.name) = true := by rw [he]; simp
            rw [if_pos hnn, hnn2, if_pos rfl]
            omega
          · have he2 : (item.1.name == k.name) = false := by
              apply beq_eq_false_iff_ne.mpr
              intro he
              exact hnn (by simp [he])
            rw [if_neg hnn, he2, if_neg (by decide)]
            omega
      rw [hcur]

/-- C3 counterexample: in class Foo the size-one constructor group is
emitted under __init__, not under the bare name Foo, and the overloaded
uppercase-named group Bar of size two is emitted under the lowercased
mangled symbol _foo_bar_0, not under the literal form _Foo_Bar_0. -/
theorem c3_counterexample :
    dictGetK (classpyxState ts0 descMix none ∅ ∅).mangled kFooCtor = some ("__init__") ∧
    ¬ dictGetK (classpyxState ts0 descMix none ∅ ∅).mangled kFooCtor = some ("Foo") ∧
    dictGetK (classpyxState ts0 descMix none ∅ ∅).mangled kBar1 = some ("_foo_bar_0") ∧
    ¬ dictGetK (classpyxState ts0 descMix none ∅ ∅).mangled kBar1 =
      some ("_Foo_Bar_0") := by
  refine ⟨by decide, by decide, by decide, by decide⟩

/-- C3 (corrected): for every non-private signature key of a class
description whose name group has fewer than 1000 members (the domain on
which the embedded pad width agrees with the source's floating-point
width computation), the mangled_mnames entry the classpyx loop assigns
is the bare name when the name group has one member - except that a
size-one constructor group collapses to __init__ - and for a group of
more than one member it is the lowercased _<owner>_<name>_<index>
symbol whose index counts the earlier same-name keys in
sorted-by-signature-key order, zero-padded to the decimal digit count
of the group cardinality; the analogous statement holds for the funcpyx
loop without the owner component; and within any group of more than one
member the symbols of two distinct keys differ. -/
theorem c3_mangled_symbols (ts : TS) (desc : ClassDesc) (classes : Option Classes)
    (itups citups : Finset DepTup) (fdesc : FuncDesc) (k : MKey) (r : Option SemType)
    (fk : MKey) (fr : Option SemType)
    (hnodup : ((pySortedBy cmpItem desc.methods).map (fun kv => kv.1)).Nodup)
    (hmem : (k, r) ∈ pySortedBy cmpItem desc.methods)
    (hpriv : strStartsWith k.name ("_") = false)
    (hwidth : countNameItems (pySortedBy cmpItem desc.methods) k.name < 1000)
    (hfnodup : ((pySortedBy cmpItem fdesc.signatures).map (fun kv => kv.1)).Nodup)
    (hfmem : (fk, fr) ∈ pySortedBy cmpItem fdesc.signatures)
    (hfpriv : strStartsWith fk.name ("_") = false)
    (hfwidth : countNameItems (pySortedBy cmpItem fdesc.signatures) fk.name < 1000) :
    dictGetK (classpyxState ts desc classes itups citups).mangled k =
      some (classSymOf desc.name
        (countNameItems (pySortedBy cmpItem desc.methods) k.name)
        (occBefore (pySortedBy cmpItem desc.methods) k) k r) ∧
    dictGetK (funcpyxState ts fdesc).mangled fk =
      some (funcSymOf (countNameItems (pySortedBy cmpItem fdesc.signatures) fk.name)
        (occBefore (pySortedBy cmpItem fdesc.signatures) fk) fk) ∧
    (∀ (k2 : MKey) (r2 : Option SemType), (k2, r2) ∈ pySortedBy cmpItem desc.methods →
      k2.name = k.name → ¬ k2 = k →
      1 < countNameItems (pySortedBy cmpItem desc.methods) k.name →
      ¬ classSymOf desc.name (countNameItems (pySortedBy cmpItem desc.methods) k.name)
          (occBefore (pySortedBy cmpItem desc.methods) k) k r =
        classSymOf desc.name (countNameItems (pySortedBy cmpItem desc.methods) k.name)
          (occBefore (pySortedBy cmpItem desc.methods) k2) k2 r2) ∧
    (∀ (fk2 : MKey) (fr2 : Option SemType),
      (fk2, fr2) ∈ pySortedBy cmpItem fdesc.signatures →
      fk2.name = fk.name → ¬ fk2 = fk →
      1 < countNameItems (pySortedBy cmpItem fdesc.signatures) fk.name →
      ¬ funcSymOf (countNameItems (pySortedBy cmpItem fdesc.signatures) fk.name)
          (occBefore (pySortedBy cmpItem fdesc.signatures) fk) fk =
        funcSymOf (countNameItems (pySortedBy cmpItem fdesc.signatures) fk.name)
          (occBefore (pySortedBy cmpItem fdesc.signatures) fk2) fk2) := by
  refine ⟨?_, ?_, ?_, ?_⟩
  · unfold classpyxState
    rw [pyxLoop_mangled_assigned ts (classes.getD [(desc.name, desc)]) desc
      (count0 (desc.methods.map (fun kv => kv.1)))
      (pySortedBy cmpItem desc.methods) (pyxInit itups citups) k r hnodup hmem hpriv]
    have hcnt := count0_eq_countNameItems desc.methods k.name
    simp [pyxInit, hcnt]
  · unfold funcpyxState
    rw [funcLoop_mangled_assigned ts fdesc
      (count0 (fdesc.signatures.map (fun kv => kv.1)))
      (stripExt fdesc.srcpxd_filename)
      (pySortedBy cmpItem fdesc.signatures)
      ⟨fun _ => 0, [], [], ∅, {[stripExt fdesc.srcpxd_filename]}⟩ fk fr
      hfnodup hfmem hfpriv]
    have hcnt := count0_eq_countNameItems fdesc.signatures fk.name
    simp [hcnt]
  · intro k2 r2 hmem2 hname hne hcnt hsym
    unfold classSymOf at hsym
    rw [hname] at hsym
    rw [if_pos hcnt, if_pos hcnt] at hsym
    exact occBefore_inj _ k k2 r r2 hmem hmem2 (fun he => hne he.symm) hname
      (mangleName_inj desc.name k.name _ _ _ hsym)
  · intro fk2 fr2 hfmem2 hname hne hcnt hsym
    unfold funcSymOf at hsym
    rw [hname] at hsym
    rw [if_pos hcnt, if_pos hcnt] at hsym
    exact occBefore_inj _ fk fk2 fr fr2 hfmem hfmem2 (fun he => hne he.symm) hname
      (funcMangleName_inj fk.name _ _ _ hsym)

/-- Witness for C3 at the two-constructor class Pt and the overloaded
free function h: the loop assigns the concrete lowercased zero-padded
symbols. -/
theorem c3_mangled_symbols_witness :
    dictGetK (classpyxState ts0 descPt none ∅ ∅).mangled kPtInt = some ("_pt_pt_0") ∧
    dictGetK (funcpyxState ts0 descH).mangled kHInt = some ("_h_0") := by
  obtain ⟨h1, h2, h3, h4⟩ := c3_mangled_symbols ts0 descPt none ∅ ∅ descH kPtInt none
    kHInt (some ("int")) (by decide) (by decide) (by decide) (by decide) (by decide)
    (by decide) (by decide) (by decide)
  constructor
  · rw [h1]
    decide
  · rw [h2]
    decide

/-- C4 (confirmed): a constructor group of size one is emitted as a
single constructor block registered under __init__ with no dispatcher;
a constructor group of more than one member keeps the mangled
per-variant symbols in its constructor emissions and additionally
receives a dispatcher emission registered under __init__ with no
return value. -/
theorem c4_constructor_group (ts : TS) (desc : ClassDesc) (classes : Option Classes)
    (itups citups : Finset DepTup)
    (hpriv : strStartsWith desc.name ("_") = false)
    (hctor : ∀ kv ∈ desc.methods, kv.1.name = desc.name → kv.2 = none) :
    (∀ (kk : MKey) (rr : Option SemType),
      (pySortedBy cmpItem desc.methods).filter (fun kv => kv.1.name == desc.name) =
        [(kk, rr)] →
      (classpyxState ts desc classes itups citups).cevents =
        [PyxEvent.ctor ⟨desc.name, "__init__", desc.name, kk.args,
          doc_add_sig ((dictGet desc.docstrings.meths desc.name).getD "") desc.name
            kk.args true,
          some desc.srcpxd_filename,
          (method_instance_names ts (classes.getD [(desc.name, desc)]) desc kk
            none).1⟩]) ∧
    (1 < countNameItems (pySortedBy cmpItem desc.methods) desc.name →
      (∀ ev ∈ (classpyxState ts desc classes itups citups).cevents,
        (∃ ce : CtorEmit, ev = PyxEvent.ctor ce ∧ ce.mname = desc.name ∧
          ∃ i, ce.mangled = mangleName desc.name desc.name i
            (countNameItems (pySortedBy cmpItem desc.methods) desc.name)) ∨
        (∃ de : DispEmit, ev = PyxEvent.disp de ∧ de.regname = "__init__" ∧
          de.hasrtn = false)) ∧
      (∃ de : DispEmit,
        PyxEvent.disp de ∈ (classpyxState ts desc classes itups citups).cevents ∧
        de.regname = "__init__" ∧ de.hasrtn = false)) := by
  have hperm : (pySortedBy cmpItem desc.methods).Perm desc.methods :=
    List.perm_insertionSort _ _
  have hctor2 : ∀ kv ∈ pySortedBy cmpItem desc.methods,
      kv.1.name = desc.name → kv.2 = none :=
    fun kv hkv => hctor kv (hperm.mem_iff.mp hkv)
  have hcnt : count0 (desc.methods.map (fun kv => kv.1)) desc.name =
      countNameItems (pySortedBy cmpItem desc.methods) desc.name :=
    count0_eq_countNameItems _ _
  constructor
  · intro kk rr hfilter
    have hcnt1 : count0 (desc.methods.map (fun kv => kv.1)) desc.name = 1 := by
      rw [hcnt]
      unfold countNameItems
      rw [hfilter]
      rfl
    unfold classpyxState
    rw [pyxLoop_cevents_cnt1 ts (classes.getD [(desc.name, desc)]) desc
      (count0 (desc.methods.map (fun kv => kv.1))) hcnt1 hpriv
      (pySortedBy cmpItem desc.methods) (pyxInit itups citups) hctor2]
    rw [hfilter]
    have hkname : kk.name = desc.name := by
      have hmemf : (kk, rr) ∈ (pySortedBy cmpItem desc.methods).filter
          (fun kv => kv.1.name == desc.name) := by
        rw [hfilter]
        exact List.mem_singleton.mpr rfl
      have := List.of_mem_filter hmemf
      simpa using this
    simp [pyxInit, hkname]
  · intro hN
    have hN' : 1 < count0 (desc.methods.map (fun kv => kv.1)) desc.name := by
      rw [hcnt]
      exact hN
    constructor
    · intro ev hev
      unfold classpyxState at hev
      have hshape := pyxLoop_cevents_shape ts (classes.getD [(desc.name, desc)]) desc
        (count0 (desc.methods.map (fun kv => kv.1))) hN' hpriv
        (pySortedBy cmpItem desc.methods) (pyxInit itups citups) hctor2
        (fun ev0 hev0 => absurd hev0 (List.not_mem_nil ev0))
        ev hev
      rw [hcnt] at hshape
      exact hshape
    · have hd := pyxLoop_ctor_disp ts (classes.getD [(desc.name, desc)]) desc
        (count0 (desc.methods.map (fun kv => kv.1))) hN' hpriv
        (pySortedBy cmpItem desc.methods) (pyxInit itups citups) hctor2
        (by simp [pyxInit, hcnt]) (by omega)
      unfold classpyxState
      exact hd

/-- Witness for C4: class Foo's size-one constructor group collapses to
a single __init__ constructor emission, and the two-constructor class Pt
receives a dispatcher emission registered under __init__ with no return
value. -/
theorem c4_constructor_group_witness :
    (classpyxState ts0 descFoo none ∅ ∅).cevents =
      [PyxEvent.ctor ⟨"Foo", "__init__", "Foo", kFooCtor.args,
        doc_add_sig ((dictGet descFoo.docstrings.meths "Foo").getD "") "Foo"
          kFooCtor.args true,
        some ("cpp_foo.pxd"),
        (method_instance_names ts0 [("Foo", descFoo)] descFoo kFooCtor none).1⟩] ∧
    ∃ de : DispEmit, PyxEvent.disp de ∈ (classpyxState ts0 descPt none ∅ ∅).cevents ∧
      de.regname = "__init__" ∧ de.hasrtn = false := by
  constructor
  · exact (c4_constructor_group ts0 descFoo none ∅ ∅ (by decide) (by decide)).1
      kFooCtor none (by decide)
  · exact ((c4_constructor_group ts0 descPt none ∅ ∅ (by decide) (by decide)).2
      (by decide)).2
